import Mathlib

/-!
# Tournament Scheduling Engine — verification against the source

Shallow embedding of the tournament logic of the SportsPyscho repository:

* `api/models/tournament.js` — the `Tournament` model: elimination-bracket
  generation, round-robin schedule generation, match-result updates, winner
  advancement and standings computation.
* the tournaments API route module (`api/tournaments`) — route-level
  creation validation, bracket-structure generation, tournament start and
  first-round match generation.

Conventions of the embedding:

* Participant identifiers are opaque strings in the source; they are encoded
  as natural numbers here.  JavaScript truthiness tests on identifiers
  (`if (!match.participant2)`) are encoded as `Option` tests: `none` is
  `null`/absent, `some pid` is a (truthy) identifier string.
* `matchId` strings have the shapes `round{r}_match{i}` (bracket matches) and
  `match{k}` (round-robin matches).  Both shapes are injective in their
  numeric components and the two shapes are disjoint, so match identifiers
  are encoded as the inductive `MatchId` with those two constructors.
* In-place mutation is encoded by explicit state passing: each operation
  returns the updated structure.
* `standings` is a JavaScript object keyed by participant-id strings; for the
  non-numeric id strings the application uses, `Object.values` returns
  entries in insertion order, i.e. roster order.  It is encoded as a list
  built in roster order.  A lookup of a key that is absent throws a
  `TypeError` in JavaScript; this is encoded with `Option` (`none` = crash).
* `Array.prototype.sort` is stable (ECMAScript 2019+); it is encoded as a
  stable insertion sort on the comparator of the source.
* Timestamp bookkeeping (`updatedAt`, `createdAt`) and display-only strings
  (names, round names) carry no behavioural content and are omitted.
-/

/-! ## Generic list helpers -/

/-- Functional update of the element at index `i` (no-op when out of range).
Encodes an in-place JavaScript mutation of `l[i]`. -/
def updAt {α : Type} (f : α → α) : ℕ → List α → List α
  | _, [] => []
  | 0, x :: xs => f x :: xs
  | i + 1, x :: xs => x :: updAt f i xs

theorem updAt_nil {α : Type} (f : α → α) (i : ℕ) : updAt f i [] = [] := by
  cases i <;> rfl

theorem updAt_length {α : Type} (f : α → α) (i : ℕ) (l : List α) :
    (updAt f i l).length = l.length := by
  induction l generalizing i with
  | nil => simp [updAt_nil]
  | cons x xs ih =>
    cases i with
    | zero => rfl
    | succ j => simpa [updAt] using ih j

theorem updAt_get? {α : Type} (f : α → α) (i j : ℕ) (l : List α) :
    (updAt f i l).get? j = if i = j then (l.get? j).map f else l.get? j := by
  induction l generalizing i j with
  | nil => simp [updAt_nil]
  | cons x xs ih =>
    cases i with
    | zero =>
      cases j with
      | zero => simp [updAt]
      | succ j' => simp [updAt]
    | succ i' =>
      cases j with
      | zero => simp [updAt]
      | succ j' =>
        have := ih i' j'
        simp only [updAt, List.get?_cons_succ, this, Nat.succ_inj]

theorem updAt_get?_self {α : Type} (f : α → α) (i : ℕ) (l : List α) :
    (updAt f i l).get? i = (l.get? i).map f := by
  rw [updAt_get?, if_pos rfl]

theorem updAt_get?_ne {α : Type} (f : α → α) {i j : ℕ} {l : List α} (h : i ≠ j) :
    (updAt f i l).get? j = l.get? j := by
  rw [updAt_get?, if_neg h]

theorem updAt_eq_self {α : Type} (f : α → α) (i : ℕ) (l : List α)
    (h : ∀ x, l.get? i = some x → f x = x) : updAt f i l = l := by
  induction l generalizing i with
  | nil => simp [updAt_nil]
  | cons x xs ih =>
    cases i with
    | zero =>
      have := h x (by simp)
      simp [updAt, this]
    | succ i' =>
      have := ih i' (fun y hy => h y (by simpa using hy))
      simp [updAt, this]

theorem updAt_updAt_same {α : Type} (f g : α → α) (i : ℕ) (l : List α) :
    updAt f i (updAt g i l) = updAt (f ∘ g) i l := by
  induction l generalizing i with
  | nil => simp [updAt_nil]
  | cons x xs ih =>
    cases i with
    | zero => simp [updAt]
    | succ i' => simp [updAt, ih]

/-! ## Core data model (`api/models/tournament.js`) -/

/-- The `score` payload `{ participant1, participant2 }`. -/
structure MatchScore where
  s1 : ℕ
  s2 : ℕ
deriving DecidableEq, Repr

/-- A bracket match object: `{ matchId: "round{round}_match{num}", round,
participant1, participant2, winner, score }`. -/
structure EMatch where
  round : ℕ
  num : ℕ
  participant1 : Option ℕ
  participant2 : Option ℕ
  winner : Option ℕ
  score : MatchScore
deriving DecidableEq, Repr

/-- A round-robin match object: `{ matchId: "match{num}", round,
participant1, participant2, winner, score, completed }`.  The generator only
stores matches whose two participants are real (non-bye), so the participant
slots are plain identifiers. -/
structure RMatch where
  num : ℕ
  round : ℕ
  participant1 : ℕ
  participant2 : ℕ
  winner : Option ℕ
  score : MatchScore
  completed : Bool
deriving DecidableEq, Repr

/-- Tournament `status` values of the model layer:
`'upcoming' | 'in-progress' | 'completed'`. -/
inductive TStatus where
  | upcoming
  | inProgress
  | completed
deriving DecidableEq, Repr

/-- Tournament `type` values: `'elimination' | 'round-robin'`. -/
inductive TType where
  | elimination
  | roundRobin
deriving DecidableEq, Repr

/-- A standings entry `{ participantId, wins, losses, points }`. -/
structure Standing where
  participantId : ℕ
  wins : ℕ
  losses : ℕ
  points : ℕ
deriving DecidableEq, Repr

/-- The `Tournament` model object (behaviourally relevant fields).  The
bracket is `rounds`, a list of rounds each holding its matches; `none`
encodes `bracket: null`. -/
structure Tournament where
  ttype : TType
  participantIds : List ℕ
  bracket : Option (List (List EMatch))
  tmatches : List RMatch
  standings : List Standing
  winnerId : Option ℕ
  status : TStatus
deriving DecidableEq, Repr

/-- `ceil(log2 n)`, by structural recursion on a fuel bound so that concrete
brackets evaluate inside the kernel (`Nat.clog` is defined by well-founded
recursion and does not reduce there).  `ceilLog2_eq_clog` identifies it with
`Nat.clog 2`. -/
def ceilLog2Aux : ℕ → ℕ → ℕ
  | 0, _ => 0
  | fuel + 1, m => if m ≤ 1 then 0 else ceilLog2Aux fuel ((m + 1) / 2) + 1

/-- `Math.ceil(Math.log2 n)` (exact on naturals). -/
def ceilLog2 (n : ℕ) : ℕ := ceilLog2Aux n n

/-- `generateEliminationBracket`: first round pairs seeds `2i, 2i+1` (slots
beyond the roster are `null` byes; a match with a `null` `participant2`
auto-resolves to `participant1`), then one further empty round per halving.
`bracketSize = 2^ceil(log2 n)` and `numRounds = log2(bracketSize)
= ceilLog2 n` exactly; for `n ≥ 2` the JavaScript loop bounds
`bracketSize/2` and `bracketSize/2^round` are exact integer divisions, as
encoded here. -/
def generateEliminationBracket (pids : List ℕ) : List (List EMatch) :=
  let numRounds := ceilLog2 pids.length
  let bracketSize := 2 ^ numRounds
  let firstRound : List EMatch :=
    (List.range (bracketSize / 2)).map (fun i =>
      let p1 := pids.get? (2 * i)
      let p2 := pids.get? (2 * i + 1)
      { round := 1, num := i + 1, participant1 := p1, participant2 := p2,
        winner := if p2 = none then p1 else none, score := ⟨0, 0⟩ })
  firstRound ::
    (List.range' 2 (numRounds - 1)).map (fun r =>
      (List.range (bracketSize / 2 ^ r)).map (fun i =>
        { round := r, num := i + 1, participant1 := none, participant2 := none,
          winner := none, score := ⟨0, 0⟩ }))

/-- A fresh elimination tournament as built by the constructor followed by
`generateEliminationBracket` (status defaults to `'upcoming'`). -/
def buildElimTournament (pids : List ℕ) : Tournament :=
  { ttype := TType.elimination, participantIds := pids,
    bracket := some (generateEliminationBracket pids), tmatches := [],
    standings := [], winnerId := none, status := TStatus.upcoming }

/-! ### Round-robin schedule generation -/

/-- One rotation step `participants.splice(1, 0, participants.pop())`: the
head stays fixed and the tail rotates right by one. -/
def rrStep : List (Option ℕ) → List (Option ℕ)
  | [] => []
  | x :: xs => x :: xs.rotate (xs.length - 1)

/-- The pairs stored for one round: slot `i` meets slot `len - 1 - i`; a
pairing with a `null` bye slot is skipped, not stored. -/
def rrRoundPairs (l : List (Option ℕ)) : List (ℕ × ℕ) :=
  (List.range (l.length / 2)).filterMap (fun i =>
    match l.get? i >>= id, l.get? (l.length - 1 - i) >>= id with
    | some a, some b => some (a, b)
    | _, _ => none)

/-- All rounds: generate the current round's pairs, rotate, repeat. -/
def rrBuildAux : ℕ → List (Option ℕ) → List (List (ℕ × ℕ))
  | 0, _ => []
  | k + 1, l => rrRoundPairs l :: rrBuildAux k (rrStep l)

/-- The padded participant list: a `null` bye is appended when the roster
size is odd. -/
def rrPadded (pids : List ℕ) : List (Option ℕ) :=
  pids.map some ++ (if pids.length % 2 = 1 then [none] else [])

/-- The per-round participant pairs of `generateRoundRobinSchedule`. -/
def rrPairRounds (pids : List ℕ) : List (List (ℕ × ℕ)) :=
  rrBuildAux ((rrPadded pids).length - 1) (rrPadded pids)

/-- `generateRoundRobinSchedule`: the stored match objects, with 1-based
round numbers per rotation round and sequential `match{k}` identifiers. -/
def generateRoundRobinSchedule (pids : List ℕ) : List RMatch :=
  (((rrPairRounds pids).enum.flatMap
      (fun tp => tp.2.map (fun p => (tp.1 + 1, p)))).enum).map
    (fun jp =>
      { num := jp.1 + 1, round := jp.2.1, participant1 := jp.2.2.1,
        participant2 := jp.2.2.2, winner := none, score := ⟨0, 0⟩,
        completed := false })

/-- A fresh round-robin tournament as built by the constructor followed by
`generateRoundRobinSchedule`. -/
def buildRRTournament (pids : List ℕ) : Tournament :=
  { ttype := TType.roundRobin, participantIds := pids, bracket := none,
    tmatches := generateRoundRobinSchedule pids, standings := [],
    winnerId := none, status := TStatus.upcoming }

/-! ### Match-result updates (elimination) -/

/-- Locate a match by its identifier components inside one round. -/
def findMatchInRound (rnd : List EMatch) (r num : ℕ) : Option ℕ :=
  rnd.findIdx? (fun m => m.round == r && m.num == num)

/-- Locate a bracket match by identifier: first matching round, first
matching match, as the nested `find` loops do.  Returns (round index within
`rounds`, match index within that round). -/
def elimFindMatch : List (List EMatch) → ℕ → ℕ → Option (ℕ × ℕ)
  | [], _, _ => none
  | rnd :: rest, r, num =>
    match findMatchInRound rnd r num with
    | some mi => some (0, mi)
    | none => (elimFindMatch rest r num).map (fun p => (p.1 + 1, p.2))

/-- Read the match at (round index, match index). -/
def getMatch (br : List (List EMatch)) (ri mi : ℕ) : Option EMatch :=
  (br.get? ri).bind (fun rnd => rnd.get? mi)

/-- The slot write of `advanceWinnerToNextRound`: the winner value goes to
slot `matchIndex % 2` of the fed match. -/
def advSlotWrite (wv : Option ℕ) (matchIndex : ℕ) (nm : EMatch) : EMatch :=
  if matchIndex % 2 = 0 then { nm with participant1 := wv }
  else { nm with participant2 := wv }

/-- `advanceWinnerToNextRound(match)`: no-op when the winner is unset or the
match is in the last stored round; otherwise writes the winner into slot
`matchIndex % 2` of match `matchIndex / 2` of `rounds[match.round]`, and —
when `match.round === rounds.length - 1` — records the tournament winner and
marks the tournament completed.  (`matchIndex` is parsed from the matchId,
i.e. `num - 1`.)  Takes and returns (bracket, winnerId, status). -/
def advanceWinnerToNextRound (br : List (List EMatch)) (winnerId0 : Option ℕ)
    (status0 : TStatus) (m : EMatch) :
    List (List EMatch) × Option ℕ × TStatus :=
  if m.winner = none ∨ br.length ≤ m.round then (br, winnerId0, status0)
  else
    let matchIndex := m.num - 1
    let br' := updAt (fun rnd =>
        updAt (advSlotWrite m.winner matchIndex) (matchIndex / 2) rnd)
      m.round br
    if m.round = br.length - 1 then (br', m.winner, TStatus.completed)
    else (br', winnerId0, status0)

/-- The elimination branch of `updateMatchResult`: find the match, overwrite
winner and score unconditionally, advance, return `true`; `false` when the
match is not found or no bracket exists. -/
def elimUpdateMatchResult (t : Tournament) (r num winnerId : ℕ)
    (score : MatchScore) : Bool × Tournament :=
  match t.bracket with
  | none => (false, t)
  | some br =>
    match elimFindMatch br r num with
    | none => (false, t)
    | some (ri, mi) =>
      match getMatch br ri mi with
      | none => (false, t)
      | some m0 =>
        let m' := { m0 with winner := some winnerId, score := score }
        let br' := updAt (fun rnd => updAt (fun _ => m') mi rnd) ri br
        let res := advanceWinnerToNextRound br' t.winnerId t.status m'
        (true, { t with
                  bracket := some res.1, winnerId := res.2.1,
                  status := res.2.2 })

/-! ### Standings (round-robin) -/

/-- A fresh standings entry. -/
def initStanding (pid : ℕ) : Standing :=
  { participantId := pid, wins := 0, losses := 0, points := 0 }

/-- `standings[pid].…++` — update the entry of `pid`; a missing key is a
JavaScript `TypeError`, encoded as `none`. -/
def bumpStanding (l : List Standing) (pid : ℕ) (f : Standing → Standing) :
    Option (List Standing) :=
  if l.any (fun s => s.participantId == pid) then
    some (l.map (fun s => if s.participantId = pid then f s else s))
  else none

/-- Fold one match into the standings table: a completed match with a winner
adds a win and 3 points to the winner and a loss to the loser (the slot that
is not the winner — slot 2 when slot 1 equals the winner, slot 1 otherwise). -/
def applyMatchToStandings (l : List Standing) (m : RMatch) :
    Option (List Standing) :=
  if m.completed then
    match m.winner with
    | none => some l
    | some w =>
      (bumpStanding l w (fun s =>
          { s with wins := s.wins + 1, points := s.points + 3 })).bind
        (fun l1 =>
          let loser := if m.participant1 = w then m.participant2
                       else m.participant1
          bumpStanding l1 loser (fun s => { s with losses := s.losses + 1 }))
  else some l

/-- The comparator of `updateStandings` as a strict "sorts before" test:
`(a, b) => b.points - a.points`, falling back to `b.wins - a.wins` on equal
points.  `standingLt a b` holds iff the comparator is negative, i.e. `a`
must be placed strictly before `b`. -/
def standingLt (a b : Standing) : Bool :=
  b.points < a.points || (b.points == a.points && b.wins < a.wins)

/-- Stable insertion: `x` is placed after every element that must sort
strictly before it and before the first element that does not, preserving
the original order of comparator-equal elements — the observable behaviour
of the (stable) `Array.prototype.sort`. -/
def stInsert (lt : α → α → Bool) (x : α) : List α → List α
  | [] => [x]
  | y :: ys => if lt y x then y :: stInsert lt x ys else x :: y :: ys

/-- Stable sort by a strict comparator. -/
def stSort (lt : α → α → Bool) : List α → List α
  | [] => []
  | x :: xs => stInsert lt x (stSort lt xs)

/-- The tail of `updateStandings`: store the sorted table and — when every
match is completed and the table is non-empty — record the leader as
tournament winner and mark the tournament completed. -/
def standingsPost (t : Tournament) (raw : List Standing) : Tournament :=
  let sorted := stSort standingLt raw
  match t.tmatches.all (fun m => m.completed), sorted with
  | true, s0 :: _ =>
    { t with
      standings := sorted, winnerId := some s0.participantId,
      status := TStatus.completed }
  | _, _ => { t with standings := sorted }

/-- `updateStandings`: rebuild the table from scratch in roster order, fold
every completed match in, sort by the comparator, then `standingsPost`. -/
def updateStandings (t : Tournament) : Option Tournament :=
  (t.tmatches.foldlM applyMatchToStandings
      (t.participantIds.map initStanding)).map (standingsPost t)

/-- The round-robin branch of `updateMatchResult`: find the match by
identifier, overwrite winner/score unconditionally, set `completed`, then
recompute standings (`none` = the standings update threw). -/
def rrUpdateMatchResult (t : Tournament) (k winnerId : ℕ)
    (score : MatchScore) : Option (Bool × Tournament) :=
  match (t.tmatches.findIdx? (fun m => m.num == k)) with
  | none => some (false, t)
  | some mi =>
    let ms' := updAt (fun m =>
        { m with winner := some winnerId, score := score, completed := true })
      mi t.tmatches
    (updateStandings { t with tmatches := ms' }).map (fun t' => (true, t'))

/-- Match identifiers: `round{r}_match{num}` for bracket matches,
`match{num}` for round-robin matches (the two string shapes are disjoint and
injective in their numeric components). -/
inductive MatchId where
  | bracketId (r num : ℕ)
  | plainId (num : ℕ)
deriving DecidableEq, Repr

/-- `Tournament.updateMatchResult(matchId, winnerId, score)`.  The
elimination branch never throws; the round-robin branch may (missing
standings key).  Returns the success flag and the updated tournament. -/
def updateMatchResult (t : Tournament) (mid : MatchId) (winnerId : ℕ)
    (score : MatchScore) : Option (Bool × Tournament) :=
  if t.ttype = TType.elimination ∧ t.bracket ≠ none then
    match mid with
    | MatchId.bracketId r num =>
      some (elimUpdateMatchResult t r num winnerId score)
    | MatchId.plainId _ => some (false, t)
  else if t.ttype = TType.roundRobin then
    match mid with
    | MatchId.plainId k => rrUpdateMatchResult t k winnerId score
    | MatchId.bracketId _ _ => some (false, t)
  else some (false, t)

/-! ## Route-layer embedding (tournaments API module) -/

/-- A registered participant `{ userId, seed, … }`. -/
structure RegParticipant where
  userId : ℕ
  seed : ℕ
deriving DecidableEq, Repr

/-- Route-layer tournament status:
`'registration' | 'active' | 'completed' | 'cancelled'`. -/
inductive RtStatus where
  | registration
  | active
  | rcompleted
  | cancelled
deriving DecidableEq, Repr

/-- `bracketType` values. -/
inductive BracketType where
  | singleElim
  | doubleElim
  | roundRobinType
deriving DecidableEq, Repr

/-- A round descriptor `{ roundNumber, matchCount }` (the display-only
`roundName` is omitted). -/
structure RoundInfo where
  roundNumber : ℕ
  matchCount : ℕ
deriving DecidableEq, Repr

/-- Single-elimination round sizes: `while (matchesInRound >= 1)` halving,
by structural recursion on a fuel bound (the halving terminates within `m`
steps).  The route only ever calls this with a power of two (valid
participant counts), where JavaScript's fractional halving agrees with the
integer division used here. -/
def seRoundCountsAux : ℕ → ℕ → List ℕ
  | 0, _ => []
  | fuel + 1, m => if m = 0 then [] else m :: seRoundCountsAux fuel (m / 2)

/-- The list of match counts per single-elimination round. -/
def seRoundCounts (m : ℕ) : List ℕ := seRoundCountsAux m m

/-- `generateBracketStructure` result: single-elimination rounds,
double-elimination (winners + half-size losers, no own rounds list), or a
single all-vs-all round-robin round. -/
inductive BracketStructure where
  | single (rounds : List RoundInfo)
  | double (winners losers : List RoundInfo)
  | rrobin (rounds : List RoundInfo)
deriving DecidableEq, Repr

/-- The `rounds` list of a bracket structure (`[]` for double-elimination,
whose object keeps its initial empty `rounds`). -/
def BracketStructure.roundsList : BracketStructure → List RoundInfo
  | BracketStructure.single rounds => rounds
  | BracketStructure.double _ _ => []
  | BracketStructure.rrobin rounds => rounds

/-- Single-elimination rounds with 1-based round numbers. -/
def seRounds (numParticipants : ℕ) : List RoundInfo :=
  (seRoundCounts (numParticipants / 2)).enum.map
    (fun p => { roundNumber := p.1 + 1, matchCount := p.2 })

/-- `generateBracketStructure(bracketType, numParticipants)`. -/
def generateBracketStructure (bt : BracketType) (numParticipants : ℕ) :
    BracketStructure :=
  match bt with
  | BracketType.singleElim => BracketStructure.single (seRounds numParticipants)
  | BracketType.doubleElim =>
    BracketStructure.double (seRounds numParticipants)
      (seRounds (numParticipants / 2))
  | BracketType.roundRobinType =>
    BracketStructure.rrobin
      [{ roundNumber := 1,
         matchCount := numParticipants * (numParticipants - 1) / 2 }]

/-- A route-layer tournament record (behaviourally relevant fields). -/
structure RTournament where
  organizerId : ℕ
  capacity : ℕ
  registeredParticipants : List RegParticipant
  status : RtStatus
  currentRound : ℕ
  totalRounds : ℕ
  rbracket : BracketStructure
deriving DecidableEq, Repr

/-- Route-layer match status (`'pending'`/`'completed'`; `'active'` is
declared but never assigned). -/
inductive RMStatus where
  | pending
  | mcompleted
deriving DecidableEq, Repr

/-- A route-layer match record. -/
structure RouteMatch where
  round : ℕ
  matchNumber : ℕ
  participant1 : Option RegParticipant
  participant2 : Option RegParticipant
  winnerId : Option ℕ
  mstatus : RMStatus
deriving DecidableEq, Repr

/-- The request body of `POST /create` (fields the validation reads). -/
structure CreateReq where
  name : Option String
  bracketType : Option BracketType
  participants : ℕ
  startDate : Option ℕ
  organizerId : ℕ
deriving DecidableEq, Repr

deriving instance DecidableEq for Except

/-- Failure kinds of `POST /create` (each a 400 response). -/
inductive CreateErr where
  | missingFields
  | pastStartDate
  | invalidParticipants
deriving DecidableEq, Repr

/-- The accepted participant counts of the `POST /create` validation. -/
def validCounts : List ℕ := [4, 8, 16, 32, 64]

/-- String truthiness (`!name`): absent or empty is falsy. -/
def truthyStr : Option String → Bool
  | none => false
  | some s => !(s == "")

/-- `POST /create`: field presence validation, future start date, accepted
participant count; on success the new tournament (status `registration`,
`currentRound` 1, `totalRounds` from the generated structure) is appended to
the store.  Dates are encoded as numeric timestamps (`now` is the current
time). -/
def createRoute (now : ℕ) (req : CreateReq) (ts : List RTournament) :
    List RTournament × Except CreateErr RTournament :=
  if truthyStr req.name = false ∨ req.bracketType = none ∨
      req.participants = 0 ∨ req.startDate = none then
    (ts, Except.error CreateErr.missingFields)
  else if req.startDate.getD 0 < now then
    (ts, Except.error CreateErr.pastStartDate)
  else if req.participants ∉ validCounts then
    (ts, Except.error CreateErr.invalidParticipants)
  else
    let bracket :=
      generateBracketStructure (req.bracketType.getD BracketType.singleElim)
        req.participants
    let newT : RTournament :=
      { organizerId := req.organizerId, capacity := req.participants,
        registeredParticipants := [], status := RtStatus.registration,
        currentRound := 1, totalRounds := bracket.roundsList.length,
        rbracket := bracket }
    (ts ++ [newT], Except.ok newT)

/-- Failure kinds of `POST /:id/start` (403 and 400 responses). -/
inductive StartErr where
  | notOrganizer
  | insufficientParticipants
deriving DecidableEq, Repr

/-- `generateFirstRoundMatches`: pairs registered participants in seed
order; the JavaScript loop bound `participants.length / 2` is fractional,
so it runs `ceil(length / 2)` times and a trailing unpaired slot is
`undefined` (encoded as `none`). -/
def generateFirstRoundMatches (t : RTournament) : List RouteMatch :=
  (List.range ((t.registeredParticipants.length + 1) / 2)).map (fun i =>
    { round := 1, matchNumber := i + 1,
      participant1 := t.registeredParticipants.get? (2 * i),
      participant2 := t.registeredParticipants.get? (2 * i + 1),
      winnerId := none, mstatus := RMStatus.pending })

/-- `POST /:id/start`: organizer check, then minimum-roster check (4), then
first-round match generation, status `active` and `currentRound` 1.
`userId` is `req.user?.id` (possibly absent). -/
def startRoute (t : RTournament) (userId : Option ℕ) :
    Except StartErr (RTournament × List RouteMatch) :=
  if userId ≠ some t.organizerId then Except.error StartErr.notOrganizer
  else if t.registeredParticipants.length < 4 then
    Except.error StartErr.insufficientParticipants
  else
    Except.ok ({ t with status := RtStatus.active, currentRound := 1 },
      generateFirstRoundMatches t)

/-! ## Concrete tournaments used in the claim analyses -/

/-- A four-player elimination tournament (two bracket rounds). -/
def elimT4 : Tournament := buildElimTournament [1, 2, 3, 4]

/-- A three-player elimination tournament (`nextPowerOfTwo(3) = 4`, two
bracket rounds, one first-round bye). -/
def elimT3 : Tournament := buildElimTournament [1, 2, 3]

/-- `elimT3` after submitting the result of the one real first-round
pairing (`round1_match1`, winner participant 1). -/
def elimT3b : Tournament := (elimUpdateMatchResult elimT3 1 1 1 ⟨2, 0⟩).2

/-!
## C1 — completing the bracket

`advanceWinnerToNextRound` exits early whenever
`match.round >= this.bracket.rounds.length`, which holds for the final
round's match, so a result submitted for the final never records the
tournament winner; the branch commented "Check if this is the final match"
tests `match.round === rounds.length - 1`, which instead holds for the
semifinal round, so the tournament is marked completed (with a semifinal
winner as overall winner) as soon as a semifinal-round result arrives.
-/

/-- C1: in the four-player bracket, submitting the final's result
(`round2_match1`) succeeds but leaves the overall winner unset and the
status untouched, while submitting a first-round (semifinal-round) result
immediately sets the overall winner and marks the tournament completed. -/
theorem finalRound_submit_does_not_complete :
    ((elimUpdateMatchResult elimT4 2 1 1 ⟨2, 0⟩).1 = true ∧
      (elimUpdateMatchResult elimT4 2 1 1 ⟨2, 0⟩).2.winnerId = none ∧
      (elimUpdateMatchResult elimT4 2 1 1 ⟨2, 0⟩).2.status = TStatus.upcoming) ∧
    ((elimUpdateMatchResult elimT4 1 1 1 ⟨2, 0⟩).1 = true ∧
      (elimUpdateMatchResult elimT4 1 1 1 ⟨2, 0⟩).2.winnerId = some 1 ∧
      (elimUpdateMatchResult elimT4 1 1 1 ⟨2, 0⟩).2.status =
        TStatus.completed) := by decide

/-!
## C3 — winner validation

`updateMatchResult` never compares `winnerId` against the match's
participant slots: any identifier is written into the winner slot and the
call reports success.
-/

/-- A second four-player elimination tournament (roster 21–24). -/
def elimT4c : Tournament := buildElimTournament [21, 22, 23, 24]

/-- C3 counterexample: submitting winner `99` for `round1_match1` of a
bracket whose participants are 21 and 22 does not fail — the call succeeds
and the invalid identifier is recorded as the match winner (the claimed
`InvalidWinner` rejection does not exist). -/
theorem invalidWinner_accepted_counterexample :
    ¬ ((elimUpdateMatchResult elimT4c 1 1 99 ⟨1, 0⟩).1 = false) ∧
    ((elimUpdateMatchResult elimT4c 1 1 99 ⟨1, 0⟩).2.bracket.bind
        (fun br => getMatch br 0 0)).map EMatch.winner = some (some 99) := by
  decide

/-- `findIdx?` success yields an element at that index satisfying the
predicate. -/
theorem findIdx?_some_get? {α : Type} {p : α → Bool} {l : List α} {i : ℕ}
    (h : l.findIdx? p = some i) : ∃ x, l.get? i = some x ∧ p x = true := by
  induction l generalizing i with
  | nil => simp at h
  | cons y ys ih =>
    rw [List.findIdx?_cons] at h
    by_cases hy : p y
    · rw [if_pos hy] at h
      obtain rfl : (0 : ℕ) = i := by simpa using h
      exact ⟨y, by simp, hy⟩
    · rw [if_neg hy, List.findIdx?_succ] at h
      cases i with
      | zero => simp at h
      | succ j =>
        obtain ⟨x, hx, hpx⟩ := ih (by
          obtain ⟨k, hk, hki⟩ := Option.map_eq_some'.mp h
          simpa [Nat.succ_inj.mp hki] using hk)
        exact ⟨x, by simpa using hx, hpx⟩

/-- A successful `elimFindMatch` locates a stored match with the searched
identifier components. -/
theorem elimFindMatch_get (br : List (List EMatch)) (r n : ℕ) (ri mi : ℕ)
    (hf : elimFindMatch br r n = some (ri, mi)) :
    ∃ m, getMatch br ri mi = some m ∧ m.round = r ∧ m.num = n := by
  induction br generalizing ri with
  | nil => simp [elimFindMatch] at hf
  | cons rnd rest ih =>
    rw [elimFindMatch] at hf
    cases hfr : findMatchInRound rnd r n with
    | some j =>
      rw [hfr] at hf
      obtain ⟨rfl, rfl⟩ : 0 = ri ∧ j = mi := by
        constructor <;> [exact congrArg Prod.fst (Option.some_inj.mp hf);
          exact congrArg Prod.snd (Option.some_inj.mp hf)]
      obtain ⟨m, hm, hpm⟩ := findIdx?_some_get? hfr
      simp only [Bool.and_eq_true, beq_iff_eq] at hpm
      exact ⟨m, by simpa [getMatch] using hm, hpm.1, hpm.2⟩
    | none =>
      rw [hfr] at hf
      cases hrec : elimFindMatch rest r n with
      | none => rw [hrec] at hf; simp at hf
      | some q =>
        obtain ⟨qa, qb⟩ := q
        rw [hrec] at hf
        simp only [Option.map_some', Option.some_inj, Prod.mk.injEq] at hf
        obtain ⟨h1, h2⟩ := hf
        subst h1
        subst h2
        obtain ⟨m, hm, hr2, hn2⟩ := ih qa hrec
        exact ⟨m, by simpa [getMatch] using hm, hr2, hn2⟩

/-- Reading back the doubly-updated position. -/
theorem getMatch_updAt_self (g : EMatch → EMatch)
    (br : List (List EMatch)) (ri mi : ℕ) :
    getMatch (updAt (fun rnd => updAt g mi rnd) ri br) ri mi =
      (getMatch br ri mi).map g := by
  unfold getMatch
  rw [updAt_get?_self]
  cases br.get? ri with
  | none => rfl
  | some rnd =>
    show (updAt g mi rnd).get? mi = (rnd.get? mi).map g
    exact updAt_get?_self g mi rnd

/-- A nested position update whose inner function preserves the winner
field preserves every stored winner. -/
theorem getMatch_winner_updAt (g : EMatch → EMatch)
    (hg : ∀ m, (g m).winner = m.winner)
    (br : List (List EMatch)) (r2 i2 ri mi : ℕ) :
    ((getMatch (updAt (fun rnd => updAt g i2 rnd) r2 br) ri mi).map
        EMatch.winner) =
      (getMatch br ri mi).map EMatch.winner := by
  unfold getMatch
  by_cases hr : r2 = ri
  · subst hr
    rw [updAt_get?_self]
    cases br.get? r2 with
    | none => rfl
    | some rnd =>
      show ((updAt g i2 rnd).get? mi).map EMatch.winner =
        (rnd.get? mi).map EMatch.winner
      by_cases hi : i2 = mi
      · subst hi
        rw [updAt_get?_self]
        cases rnd.get? i2 with
        | none => rfl
        | some m =>
          show some (g m).winner = some m.winner
          rw [hg]
      · rw [updAt_get?_ne _ hi]
  · rw [updAt_get?_ne _ hr]

/-- `advanceWinnerToNextRound` only fills participant slots: it never
changes any stored winner field. -/
theorem advance_preserves_winners (br : List (List EMatch))
    (w0 : Option ℕ) (st0 : TStatus) (m : EMatch) (ri mi : ℕ) :
    ((getMatch (advanceWinnerToNextRound br w0 st0 m).1 ri mi).map
        EMatch.winner) =
      (getMatch br ri mi).map EMatch.winner := by
  unfold advanceWinnerToNextRound
  by_cases hg : m.winner = none ∨ br.length ≤ m.round
  · rw [if_pos hg]
  · rw [if_neg hg]
    by_cases hf : m.round = br.length - 1
    · simp only [if_pos hf]
      exact getMatch_winner_updAt _ (fun nm => by
        by_cases hp : (m.num - 1) % 2 = 0 <;> simp [advSlotWrite, hp]) br _ _
        ri mi
    · simp only [if_neg hf]
      exact getMatch_winner_updAt _ (fun nm => by
        by_cases hp : (m.num - 1) % 2 = 0 <;> simp [advSlotWrite, hp]) br _ _
        ri mi

/-- C3 amended: the elimination branch of `updateMatchResult` performs no
winner validation at all — for every bracket match that exists, submitting
any `winnerId` whatsoever succeeds and overwrites that match's winner slot
with it. -/
theorem elimUpdate_accepts_any_winner (t : Tournament)
    (br : List (List EMatch)) (r n w : ℕ) (s : MatchScore) (ri mi : ℕ)
    (hb : t.bracket = some br) (hf : elimFindMatch br r n = some (ri, mi)) :
    (elimUpdateMatchResult t r n w s).1 = true ∧
    ∃ br' m', (elimUpdateMatchResult t r n w s).2.bracket = some br' ∧
      getMatch br' ri mi = some m' ∧ m'.winner = some w := by
  obtain ⟨m0, hm0, _, _⟩ := elimFindMatch_get br r n ri mi hf
  simp only [elimUpdateMatchResult, hb, hf, hm0]
  refine ⟨trivial, ?_⟩
  have hw : ((getMatch (advanceWinnerToNextRound
      (updAt (fun rnd => updAt
        (fun _ => { m0 with winner := some w, score := s }) mi rnd) ri br)
      t.winnerId t.status { m0 with winner := some w, score := s }).1 ri
        mi).map EMatch.winner) = some (some w) := by
    rw [advance_preserves_winners, getMatch_updAt_self, hm0]
    rfl
  obtain ⟨m', hm', hmw⟩ := Option.map_eq_some'.mp hw
  exact ⟨_, m', rfl, hm', hmw⟩

/-!
## C6 — the five-participant bracket scenario

The generator assigns participants to first-round slots sequentially, so
for seeds 1..5 the byes all land at the tail: matches 1 and 2 are live
pairings, match 3 is the single bye match (auto-resolved to seed 5), and
match 4 has two empty slots (its "winner" is set to the empty first slot,
i.e. stays unset).  The spec scenario instead claims three auto-resolved
matches and a single live pairing.
-/

/-- The first round of the five-participant bracket. -/
def round1of5 : List EMatch :=
  (generateEliminationBracket [1, 2, 3, 4, 5]).head?.getD []

/-- C6 counterexample: for seeds 1..5 it is not the case that (round 1 has
4 matches and 3 empty slots and) three first-round matches auto-resolve
with a winner and exactly one has two live participants: only one match
auto-resolves and two are live pairings. -/
theorem fiveBracket_counterexample :
    ¬ (round1of5.countP (fun m => m.winner.isSome) = 3 ∧
       round1of5.countP
         (fun m => m.participant1.isSome && m.participant2.isSome) = 1) := by
  decide

/-- C6 amended: for seeds 1..5, round 1 has 4 matches with 3 empty (bye)
slots in total; exactly one match (seed 5 vs the bye) auto-resolves with a
winner and no played score; one match has both slots empty and its winner
stays unset; and exactly two matches have two live participants and await
submitted results. -/
theorem fiveBracket_structure :
    round1of5.length = 4 ∧
    (round1of5.countP (fun m => m.participant1 == none) +
      round1of5.countP (fun m => m.participant2 == none)) = 3 ∧
    round1of5.countP (fun m => m.winner.isSome) = 1 ∧
    round1of5.get? 2 = some ⟨1, 3, some 5, none, some 5, ⟨0, 0⟩⟩ ∧
    round1of5.get? 3 = some ⟨1, 4, none, none, none, ⟨0, 0⟩⟩ ∧
    round1of5.countP
      (fun m => m.participant1.isSome && m.participant2.isSome) = 2 := by
  decide

/-!
## C7 — the three-participant cascading-bye scenario

`generateEliminationBracket` resolves byes only inside round 1 and never
copies the bye winner forward, so immediately after the build both slots of
the final are empty.  Submitting the real pairing's result places its
winner in the final's first slot — and, because of the off-by-one described
at C1, immediately marks the whole tournament completed with that winner.
-/

/-- C7 counterexample: after building the three-participant bracket the
final does not have the bye winner (participant 3) pre-filled in either
slot, and after submitting the real pairing's result the tournament does
not stay un-completed: the final is never "ready to play". -/
theorem threeBracket_counterexample :
    ¬ ((((getMatch (generateEliminationBracket [1, 2, 3]) 1 0).map
           (fun m => (m.participant1, m.participant2)) =
             some (some 3, none)) ∨
        ((getMatch (generateEliminationBracket [1, 2, 3]) 1 0).map
           (fun m => (m.participant1, m.participant2)) =
             some (none, some 3))) ∧
       elimT3b.status ≠ TStatus.completed) := by decide

/-- C7 amended: immediately after the build the final's two slots are both
empty (the round-1 bye winner is not advanced at construction time);
submitting the real pairing's result succeeds, places its winner in the
final's first slot only (the second stays empty), and — the final round
check firing one round early — immediately marks the tournament completed
with that winner as overall winner. -/
theorem threeBracket_cascade :
    getMatch (generateEliminationBracket [1, 2, 3]) 1 0 =
      some ⟨2, 1, none, none, none, ⟨0, 0⟩⟩ ∧
    (elimUpdateMatchResult elimT3 1 1 1 ⟨2, 0⟩).1 = true ∧
    elimT3b.bracket.bind (fun br => getMatch br 1 0) =
      some ⟨2, 1, some 1, none, none, ⟨0, 0⟩⟩ ∧
    elimT3b.status = TStatus.completed ∧
    elimT3b.winnerId = some 1 := by decide

/-!
## C9 — starting a tournament (route layer)
-/

/-- C9: for an organizer-authorized start request, a roster below four
registered participants is rejected with the insufficient-participants
failure (the tournament is not started), and a roster of at least four
starts the tournament: the first-round matches are generated and the
tournament becomes `active` with current round 1. -/
theorem startRoute_minimum_participants (t : RTournament) (uid : ℕ)
    (horg : uid = t.organizerId) :
    (t.registeredParticipants.length < 4 →
       startRoute t (some uid) =
         Except.error StartErr.insufficientParticipants) ∧
    (4 ≤ t.registeredParticipants.length →
       startRoute t (some uid) =
         Except.ok ({ t with status := RtStatus.active, currentRound := 1 },
           generateFirstRoundMatches t)) := by
  subst horg
  constructor
  · intro h
    simp [startRoute, h]
  · intro h
    simp [startRoute, Nat.not_lt.mpr h]

/-- A three-participant route-layer tournament with organizer 7. -/
def startT3 : RTournament :=
  { organizerId := 7, capacity := 8,
    registeredParticipants := [⟨1, 1⟩, ⟨2, 2⟩, ⟨3, 3⟩],
    status := RtStatus.registration, currentRound := 1, totalRounds := 3,
    rbracket := BracketStructure.single [] }

/-- Witness for C9 at a concrete three-participant tournament. -/
theorem startRoute_minimum_participants_witness :
    startRoute startT3 (some 7) =
      Except.error StartErr.insufficientParticipants :=
  (startRoute_minimum_participants startT3 7 rfl).1 (by decide)

/-!
## C10 — creation accepts only the fixed participant counts
-/

/-- `2 ^ Nat.clog 2 n = n` for any power of two: such a capacity needs no
bye padding. -/
theorem pow_clog_eq_self_of_pow {n k : ℕ} (h : n = 2 ^ k) :
    2 ^ Nat.clog 2 n = n := by
  subst h
  rw [Nat.clog_pow _ _ one_lt_two]

/-- C10: the creation route accepts a participants count only if it is one
of 4, 8, 16, 32 or 64; any other count is rejected with a 400 failure and
the tournament store is left unchanged, and every accepted count is a power
of two at least 4 — in particular equal to its own power-of-two bracket
size, so a bracket created through this route needs no bye padding. -/
theorem createRoute_participant_counts (now : ℕ) (req : CreateReq)
    (ts : List RTournament) :
    (req.participants ∉ validCounts →
       (createRoute now req ts).1 = ts ∧
       ∃ e, (createRoute now req ts).2 = Except.error e) ∧
    (∀ newT, (createRoute now req ts).2 = Except.ok newT →
       req.participants ∈ validCounts ∧ 4 ≤ req.participants ∧
       ∃ k, req.participants = 2 ^ k ∧
         2 ^ Nat.clog 2 req.participants = req.participants) := by
  constructor
  · intro hnot
    by_cases h1 : truthyStr req.name = false ∨ req.bracketType = none ∨
        req.participants = 0 ∨ req.startDate = none
    · simp [createRoute, h1]
    · by_cases h2 : req.startDate.getD 0 < now
      · simp [createRoute, h1, h2]
      · simp [createRoute, h1, h2, hnot]
  · intro newT hok
    by_cases h1 : truthyStr req.name = false ∨ req.bracketType = none ∨
        req.participants = 0 ∨ req.startDate = none
    · simp [createRoute, h1] at hok
    · by_cases h2 : req.startDate.getD 0 < now
      · simp [createRoute, h1, h2] at hok
      · by_cases h3 : req.participants ∉ validCounts
        · simp [createRoute, h1, h2, h3] at hok
        · push_neg at h3
          refine ⟨h3, ?_, ?_⟩
          · simp only [validCounts, List.mem_cons, List.not_mem_nil, or_false] at h3
            rcases h3 with h | h | h | h | h <;> omega
          · simp only [validCounts, List.mem_cons, List.not_mem_nil, or_false] at h3
            rcases h3 with h | h | h | h | h <;> rw [h]
            · exact ⟨2, by norm_num, pow_clog_eq_self_of_pow (k := 2) (by norm_num)⟩
            · exact ⟨3, by norm_num, pow_clog_eq_self_of_pow (k := 3) (by norm_num)⟩
            · exact ⟨4, by norm_num, pow_clog_eq_self_of_pow (k := 4) (by norm_num)⟩
            · exact ⟨5, by norm_num, pow_clog_eq_self_of_pow (k := 5) (by norm_num)⟩
            · exact ⟨6, by norm_num, pow_clog_eq_self_of_pow (k := 6) (by norm_num)⟩

/-- Witness for C10: a request asking for 5 participants is rejected and
creates nothing. -/
theorem createRoute_participant_counts_witness :
    (5 : ℕ) ∉ validCounts ∧
    (createRoute 0 ⟨some "t", some BracketType.singleElim, 5, some 1, 9⟩
        []).1 = ([] : List RTournament) :=
  ⟨by decide,
    ((createRoute_participant_counts 0
        ⟨some "t", some BracketType.singleElim, 5, some 1, 9⟩ []).1
      (by decide)).1⟩

/-- Witness for the C3 amended theorem: submitting the arbitrary winner 77
for `round1_match2` of the 21–24 bracket succeeds. -/
theorem elimUpdate_accepts_any_winner_witness :
    (elimUpdateMatchResult elimT4c 1 2 77 ⟨0, 3⟩).1 = true :=
  (elimUpdate_accepts_any_winner elimT4c
      (generateEliminationBracket [21, 22, 23, 24]) 1 2 77 ⟨0, 3⟩ 0 1 rfl
      (by decide)).1

/-!
## C2 — resubmission machinery

`updateMatchResult` performs no already-resolved check: a second submission
with the same arguments finds the same match again, overwrites the same
fields with the same values and re-runs advancement/standings, reproducing
the state of the first call exactly.  The lemmas below establish that the
operation is idempotent.
-/

/-- `map` ignores an update whose effect is invisible to the mapped
function. -/
theorem map_updAt_invariant {α β : Type} (f : α → β) (g : α → α)
    (hg : ∀ x, f (g x) = f x) (i : ℕ) (l : List α) :
    (updAt g i l).map f = l.map f := by
  induction l generalizing i with
  | nil => simp [updAt_nil]
  | cons x xs ih =>
    cases i with
    | zero => simp [updAt, hg]
    | succ j => simp [updAt, ih]

/-- `findIdx?` ignores an update that does not change the predicate. -/
theorem findIdx?_updAt_invariant {α : Type} (p : α → Bool) (g : α → α)
    (hg : ∀ x, p (g x) = p x) (i : ℕ) (l : List α) :
    (updAt g i l).findIdx? p = l.findIdx? p := by
  induction l generalizing i with
  | nil => simp [updAt_nil]
  | cons x xs ih =>
    cases i with
    | zero => simp only [updAt, List.findIdx?_cons, hg]
    | succ j =>
      simp only [updAt, List.findIdx?_cons]
      rw [List.findIdx?_succ, List.findIdx?_succ, ih]

/-- A projection that is blind to an inner update reads the same value
through a nested position update. -/
theorem getMatch_map_updAt {β : Type} (π : EMatch → β) (g : EMatch → EMatch)
    (hg : ∀ m, π (g m) = π m) (r2 i2 : ℕ) (br : List (List EMatch))
    (ri mi : ℕ) :
    ((getMatch (updAt (fun rnd => updAt g i2 rnd) r2 br) ri mi).map π) =
      (getMatch br ri mi).map π := by
  unfold getMatch
  by_cases hr : r2 = ri
  · subst hr
    rw [updAt_get?_self]
    cases br.get? r2 with
    | none => rfl
    | some rnd =>
      show ((updAt g i2 rnd).get? mi).map π = (rnd.get? mi).map π
      by_cases hi : i2 = mi
      · subst hi
        rw [updAt_get?_self]
        cases rnd.get? i2 with
        | none => rfl
        | some m =>
          show some (π (g m)) = some (π m)
          rw [hg]
      · rw [updAt_get?_ne _ hi]
  · rw [updAt_get?_ne _ hr]

/-- The slot functions written by `advanceWinnerToNextRound` change only
the participant fields. -/
theorem advance_preserves_proj {β : Type} (π : EMatch → β)
    (hπ1 : ∀ m v, π { m with participant1 := v } = π m)
    (hπ2 : ∀ m v, π { m with participant2 := v } = π m)
    (br : List (List EMatch)) (w0 : Option ℕ) (st0 : TStatus) (m : EMatch)
    (ri mi : ℕ) :
    ((getMatch (advanceWinnerToNextRound br w0 st0 m).1 ri mi).map π) =
      (getMatch br ri mi).map π := by
  unfold advanceWinnerToNextRound
  by_cases hg : m.winner = none ∨ br.length ≤ m.round
  · rw [if_pos hg]
  · rw [if_neg hg]
    by_cases hf : m.round = br.length - 1
    · simp only [if_pos hf]
      exact getMatch_map_updAt π _ (fun nm => by
        by_cases hp : (m.num - 1) % 2 = 0 <;>
          simp [advSlotWrite, hp, hπ1, hπ2]) _ _ br ri mi
    · simp only [if_neg hf]
      exact getMatch_map_updAt π _ (fun nm => by
        by_cases hp : (m.num - 1) % 2 = 0 <;>
          simp [advSlotWrite, hp, hπ1, hπ2]) _ _ br ri mi

/-- The identifying and result fields of a match, everything
`advanceWinnerToNextRound` leaves untouched. -/
def matchCore (m : EMatch) : ℕ × ℕ × Option ℕ × MatchScore :=
  (m.round, m.num, m.winner, m.score)

/-- Advancement never changes round, number, winner or score of any stored
match. -/
theorem advance_preserves_core (br : List (List EMatch)) (w0 : Option ℕ)
    (st0 : TStatus) (m : EMatch) (ri mi : ℕ) :
    ((getMatch (advanceWinnerToNextRound br w0 st0 m).1 ri mi).map
        matchCore) = (getMatch br ri mi).map matchCore :=
  advance_preserves_proj matchCore (fun _ _ => rfl) (fun _ _ => rfl)
    br w0 st0 m ri mi

/-- The identifier grid of a bracket: every match reduced to its
`(round, num)` components, which determine its `matchId` string. -/
def bracketShape (br : List (List EMatch)) : List (List (ℕ × ℕ)) :=
  br.map (fun rnd => rnd.map (fun m => (m.round, m.num)))

/-- `findMatchInRound` only inspects the identifier components. -/
theorem findMatchInRound_shape (rnd1 rnd2 : List EMatch) (r n : ℕ)
    (h : rnd1.map (fun m => (m.round, m.num)) =
         rnd2.map (fun m => (m.round, m.num))) :
    findMatchInRound rnd1 r n = findMatchInRound rnd2 r n := by
  have key : ∀ rnd : List EMatch,
      findMatchInRound rnd r n =
        (rnd.map (fun m => (m.round, m.num))).findIdx?
          (fun q => q.1 == r && q.2 == n) := by
    intro rnd
    unfold findMatchInRound
    rw [List.findIdx?_map]
    rfl
  rw [key, key, h]

/-- `elimFindMatch` only inspects the identifier grid. -/
theorem elimFindMatch_shape_congr (br1 br2 : List (List EMatch))
    (h : bracketShape br1 = bracketShape br2) (r n : ℕ) :
    elimFindMatch br1 r n = elimFindMatch br2 r n := by
  induction br1 generalizing br2 with
  | nil =>
    cases br2 with
    | nil => rfl
    | cons rnd2 rest2 => simp [bracketShape] at h
  | cons rnd rest ih =>
    cases br2 with
    | nil => simp [bracketShape] at h
    | cons rnd2 rest2 =>
      simp only [bracketShape, List.map_cons, List.cons.injEq] at h
      rw [elimFindMatch, elimFindMatch,
        findMatchInRound_shape rnd rnd2 r n h.1, ih rest2 h.2]

/-- A nested update that preserves identifier components preserves the
identifier grid. -/
theorem bracketShape_updAt (g : EMatch → EMatch)
    (hg : ∀ m, (g m).round = m.round ∧ (g m).num = m.num) (i1 i2 : ℕ)
    (br : List (List EMatch)) :
    bracketShape (updAt (fun rnd => updAt g i2 rnd) i1 br) =
      bracketShape br := by
  unfold bracketShape
  exact map_updAt_invariant _ _ (fun rnd =>
    map_updAt_invariant _ g (fun m => by
      have := hg m
      simp [Prod.ext_iff, this.1, this.2]) i2 rnd) i1 br

/-- Advancement preserves the identifier grid. -/
theorem advance_preserves_shape (br : List (List EMatch)) (w0 : Option ℕ)
    (st0 : TStatus) (m : EMatch) :
    bracketShape (advanceWinnerToNextRound br w0 st0 m).1 =
      bracketShape br := by
  unfold advanceWinnerToNextRound
  by_cases hg : m.winner = none ∨ br.length ≤ m.round
  · rw [if_pos hg]
  · rw [if_neg hg]
    by_cases hf : m.round = br.length - 1
    · simp only [if_pos hf]
      exact bracketShape_updAt _ (fun nm => by
        by_cases hp : (m.num - 1) % 2 = 0 <;> simp [advSlotWrite, hp]) _ _ br
    · simp only [if_neg hf]
      exact bracketShape_updAt _ (fun nm => by
        by_cases hp : (m.num - 1) % 2 = 0 <;> simp [advSlotWrite, hp]) _ _ br

/-- Advancement preserves the bracket's round count. -/
theorem advance_length (br : List (List EMatch)) (w0 : Option ℕ)
    (st0 : TStatus) (m : EMatch) :
    (advanceWinnerToNextRound br w0 st0 m).1.length = br.length := by
  unfold advanceWinnerToNextRound
  by_cases hg : m.winner = none ∨ br.length ≤ m.round
  · rw [if_pos hg]
  · rw [if_neg hg]
    by_cases hf : m.round = br.length - 1
    · simp only [if_pos hf]
      exact updAt_length _ _ br
    · simp only [if_neg hf]
      exact updAt_length _ _ br

/-- `advanceWinnerToNextRound` reads only the winner, round and number of
the match it is given. -/
theorem advance_congr (br : List (List EMatch)) (w0 : Option ℕ)
    (st0 : TStatus) (m1 m2 : EMatch) (hw : m1.winner = m2.winner)
    (hr : m1.round = m2.round) (hn : m1.num = m2.num) :
    advanceWinnerToNextRound br w0 st0 m1 =
      advanceWinnerToNextRound br w0 st0 m2 := by
  unfold advanceWinnerToNextRound
  rw [hw, hr, hn]

/-- Advancement equation, guarded case. -/
theorem advance_eq_of_guard (br : List (List EMatch)) (w0 : Option ℕ)
    (st0 : TStatus) (m : EMatch)
    (h : m.winner = none ∨ br.length ≤ m.round) :
    advanceWinnerToNextRound br w0 st0 m = (br, w0, st0) := by
  unfold advanceWinnerToNextRound
  rw [if_pos h]

/-- Advancement equation, live case. -/
theorem advance_eq_of_live (br : List (List EMatch)) (w0 : Option ℕ)
    (st0 : TStatus) (m : EMatch)
    (h : ¬(m.winner = none ∨ br.length ≤ m.round)) :
    advanceWinnerToNextRound br w0 st0 m =
      (updAt (fun rnd =>
          updAt (advSlotWrite m.winner (m.num - 1)) ((m.num - 1) / 2) rnd)
        m.round br,
       if m.round = br.length - 1 then (m.winner, TStatus.completed)
       else (w0, st0)) := by
  unfold advanceWinnerToNextRound
  rw [if_neg h]
  by_cases hf : m.round = br.length - 1
  · simp only [if_pos hf]
  · simp only [if_neg hf]

/-- Writing the same winner into the same slot twice is one write. -/
theorem advSlotWrite_idem (wv : Option ℕ) (mIdx : ℕ) (nm : EMatch) :
    advSlotWrite wv mIdx (advSlotWrite wv mIdx nm) =
      advSlotWrite wv mIdx nm := by
  unfold advSlotWrite
  by_cases hp : mIdx % 2 = 0 <;> simp [hp]

/-- The success equation of the elimination branch. -/
theorem elimUpdate_success_spec (t : Tournament) (br : List (List EMatch))
    (r n w : ℕ) (s : MatchScore) (ri mi : ℕ) (m0 : EMatch)
    (hb : t.bracket = some br) (hf : elimFindMatch br r n = some (ri, mi))
    (hm0 : getMatch br ri mi = some m0) :
    elimUpdateMatchResult t r n w s =
      (true,
        { t with
          bracket := some (advanceWinnerToNextRound
            (updAt (fun rnd => updAt
              (fun _ => { m0 with winner := some w, score := s }) mi rnd)
              ri br) t.winnerId t.status
            { m0 with winner := some w, score := s }).1,
          winnerId := (advanceWinnerToNextRound
            (updAt (fun rnd => updAt
              (fun _ => { m0 with winner := some w, score := s }) mi rnd)
              ri br) t.winnerId t.status
            { m0 with winner := some w, score := s }).2.1,
          status := (advanceWinnerToNextRound
            (updAt (fun rnd => updAt
              (fun _ => { m0 with winner := some w, score := s }) mi rnd)
              ri br) t.winnerId t.status
            { m0 with winner := some w, score := s }).2.2 }) := by
  simp only [elimUpdateMatchResult, hb, hf, hm0]

/-- Overwriting a record's winner and score with the values it already
holds is the identity. -/
theorem ematch_overwrite_self (m : EMatch) (w : ℕ) (s : MatchScore)
    (hw : m.winner = some w) (hs : m.score = s) :
    { m with winner := some w, score := s } = m := by
  rw [← hw, ← hs]

/-- Identifier-grid equality after overwriting one stored match with a
record carrying the same identifier components. -/
theorem bracketShape_updAt_of_same (m' : EMatch) (ri mi : ℕ)
    (br : List (List EMatch)) (m0 : EMatch)
    (hm0 : getMatch br ri mi = some m0) (hr : m'.round = m0.round)
    (hn : m'.num = m0.num) :
    bracketShape (updAt (fun rnd => updAt (fun _ => m') mi rnd) ri br) =
      bracketShape br := by
  apply List.ext_get?
  intro j
  simp only [bracketShape, List.get?_map]
  by_cases hj : ri = j
  · subst hj
    rw [updAt_get?_self]
    cases hbr : br.get? ri with
    | none => rfl
    | some row =>
      simp only [Option.map_some']
      congr 1
      apply List.ext_get?
      intro k
      simp only [List.get?_map]
      by_cases hk : mi = k
      · subst hk
        rw [updAt_get?_self]
        have hrow : row.get? mi = some m0 := by
          have h2 := hm0
          unfold getMatch at h2
          rw [hbr] at h2
          simpa using h2
        rw [hrow]
        simp [hr, hn]
      · rw [updAt_get?_ne _ hk]
  · rw [updAt_get?_ne _ hj]

/-- Resubmitting an elimination result with the same arguments succeeds
again and leaves the tournament state exactly as it was. -/
theorem elimUpdate_idempotent (t t' : Tournament) (r n w : ℕ)
    (s : MatchScore) (h : elimUpdateMatchResult t r n w s = (true, t')) :
    elimUpdateMatchResult t' r n w s = (true, t') := by
  cases hb : t.bracket with
  | none => simp [elimUpdateMatchResult, hb] at h
  | some br =>
  cases hf : elimFindMatch br r n with
  | none => simp [elimUpdateMatchResult, hb, hf] at h
  | some p =>
  obtain ⟨ri, mi⟩ := p
  cases hm0 : getMatch br ri mi with
  | none => simp [elimUpdateMatchResult, hb, hf, hm0] at h
  | some m0 =>
  rw [elimUpdate_success_spec t br r n w s ri mi m0 hb hf hm0] at h
  have ht' := (Prod.mk.injEq _ _ _ _).mp h |>.2
  subst ht'
  set m1 : EMatch := { m0 with winner := some w, score := s } with hm1
  set br1 : List (List EMatch) :=
    updAt (fun rnd => updAt (fun _ => m1) mi rnd) ri br with hbr1
  set adv := advanceWinnerToNextRound br1 t.winnerId t.status m1 with hadv
  have hshape : bracketShape adv.1 = bracketShape br := by
    rw [hadv, advance_preserves_shape, hbr1,
      bracketShape_updAt_of_same m1 ri mi br m0 hm0 rfl rfl]
  have hf2 : elimFindMatch adv.1 r n = some (ri, mi) := by
    rw [elimFindMatch_shape_congr adv.1 br hshape, hf]
  have hcore : ((getMatch adv.1 ri mi).map matchCore) =
      some (matchCore m1) := by
    rw [hadv, advance_preserves_core, hbr1, getMatch_updAt_self, hm0]
    rfl
  obtain ⟨m2, hm2, hm2c⟩ := Option.map_eq_some'.mp hcore
  have hm2r : m2.round = m0.round := congrArg Prod.fst hm2c
  have hm2n : m2.num = m0.num := congrArg (fun q => q.2.1) hm2c
  have hm2w : m2.winner = some w := congrArg (fun q => q.2.2.1) hm2c
  have hm2s : m2.score = s := congrArg (fun q => q.2.2.2) hm2c
  have hmm : { m2 with winner := some w, score := s } = m2 :=
    ematch_overwrite_self m2 w s hm2w hm2s
  have hbr2 : updAt (fun rnd => updAt (fun _ => m2) mi rnd) ri adv.1 =
      adv.1 := by
    apply updAt_eq_self
    intro row hrow
    apply updAt_eq_self
    intro e he
    have hge : getMatch adv.1 ri mi = some e := by
      unfold getMatch
      rw [hrow]
      simpa using he
    rw [hm2] at hge
    exact Option.some_inj.mp hge
  have hlen1 : br1.length = br.length := by
    rw [hbr1]
    exact updAt_length _ _ br
  have hlenadv : adv.1.length = br.length := by
    rw [hadv, advance_length, hlen1]
  have hspec2 := elimUpdate_success_spec
    { t with bracket := some adv.1, winnerId := adv.2.1, status := adv.2.2 }
    adv.1 r n w s ri mi m2 rfl hf2 hm2
  rw [hspec2, hmm, hbr2]
  by_cases hguard : m1.winner = none ∨ br1.length ≤ m1.round
  · have hguard2 : m2.winner = none ∨ adv.1.length ≤ m2.round := by
      rcases hguard with hg | hg
      · exact absurd hg (by simp [hm1])
      · right
        rw [hlenadv, hm2r]
        rw [hlen1] at hg
        simpa [hm1] using hg
    have e2 : advanceWinnerToNextRound adv.1 adv.2.1 adv.2.2 m2 =
        (adv.1, adv.2.1, adv.2.2) :=
      advance_eq_of_guard _ _ _ _ hguard2
    simp only [e2]
  · have hguard2 : ¬(m2.winner = none ∨ adv.1.length ≤ m2.round) := by
      rw [not_or] at hguard ⊢
      refine ⟨by simp [hm2w], ?_⟩
      rw [hlenadv, hm2r]
      rw [hlen1] at hguard
      simpa [hm1] using hguard.2
    have e1 : adv =
        (updAt (fun rnd => updAt (advSlotWrite m1.winner (m1.num - 1))
            ((m1.num - 1) / 2) rnd) m1.round br1,
         if m1.round = br1.length - 1 then (m1.winner, TStatus.completed)
         else (t.winnerId, t.status)) := by
      rw [hadv]
      exact advance_eq_of_live _ _ _ _ hguard
    have e2 := advance_eq_of_live adv.1 adv.2.1 adv.2.2 m2 hguard2
    have hw2 : m2.winner = m1.winner := by
      rw [hm2w]
    have hr2 : m2.round = m1.round := by
      rw [hm2r]
    have hn2 : m2.num = m1.num := by
      rw [hm2n]
    have hcollapse :
        updAt (fun rnd => updAt (advSlotWrite m2.winner (m2.num - 1))
            ((m2.num - 1) / 2) rnd) m2.round adv.1 = adv.1 := by
      rw [hw2, hr2, hn2]
      conv_lhs => rw [e1]
      conv_rhs => rw [e1]
      simp only
      rw [updAt_updAt_same]
      congr 1
      funext rnd
      show updAt (advSlotWrite m1.winner (m1.num - 1)) ((m1.num - 1) / 2)
          (updAt (advSlotWrite m1.winner (m1.num - 1)) ((m1.num - 1) / 2)
            rnd) = updAt (advSlotWrite m1.winner (m1.num - 1))
          ((m1.num - 1) / 2) rnd
      rw [updAt_updAt_same]
      congr 1
      funext nm
      exact advSlotWrite_idem _ _ nm
    rw [e2, hcollapse]
    by_cases hfin : m1.round = br1.length - 1
    · have hfin2 : m2.round = adv.1.length - 1 := by
        rw [hr2, hlenadv, ← hlen1, hfin]
      have hwin : adv.2.1 = m1.winner := by
        rw [e1]
        simp only [if_pos hfin]
      have hst : adv.2.2 = TStatus.completed := by
        rw [e1]
        simp only [if_pos hfin]
      rw [if_pos hfin2, hw2, ← hwin, ← hst]
    · have hfin2 : ¬(m2.round = adv.1.length - 1) := by
        rw [hr2, hlenadv, ← hlen1]
        exact hfin
      rw [if_neg hfin2]

/-- `standingsPost` only writes standings, winner and status. -/
theorem standingsPost_fields (t : Tournament) (raw : List Standing) :
    (standingsPost t raw).ttype = t.ttype ∧
    (standingsPost t raw).participantIds = t.participantIds ∧
    (standingsPost t raw).bracket = t.bracket ∧
    (standingsPost t raw).tmatches = t.tmatches := by
  unfold standingsPost
  cases hall : t.tmatches.all (fun m => m.completed) <;>
    cases hsort : stSort standingLt raw <;> simp

/-- `standingsPost` equation: all matches complete, non-empty table. -/
theorem standingsPost_eq_complete (t : Tournament) (raw : List Standing)
    (s0 : Standing) (rest : List Standing)
    (hall : t.tmatches.all (fun m => m.completed) = true)
    (hsort : stSort standingLt raw = s0 :: rest) :
    standingsPost t raw =
      { t with
        standings := s0 :: rest, winnerId := some s0.participantId,
        status := TStatus.completed } := by
  simp only [standingsPost, hall, hsort]

/-- `standingsPost` equation: some match still open. -/
theorem standingsPost_eq_open (t : Tournament) (raw : List Standing)
    (hall : t.tmatches.all (fun m => m.completed) = false) :
    standingsPost t raw = { t with standings := stSort standingLt raw } := by
  simp only [standingsPost, hall]

/-- `standingsPost` equation: empty table. -/
theorem standingsPost_eq_nil (t : Tournament) (raw : List Standing)
    (hsort : stSort standingLt raw = []) :
    standingsPost t raw = { t with standings := [] } := by
  cases hall : t.tmatches.all (fun m => m.completed) <;>
    simp only [standingsPost, hall, hsort]

/-- Re-running `standingsPost` with the same raw table changes nothing. -/
theorem standingsPost_idem (t : Tournament) (raw : List Standing) :
    standingsPost (standingsPost t raw) raw = standingsPost t raw := by
  cases hall : t.tmatches.all (fun m => m.completed) with
  | false =>
    rw [standingsPost_eq_open t raw hall,
      standingsPost_eq_open _ raw (by simpa using hall)]
  | true =>
    cases hsort : stSort standingLt raw with
    | nil =>
      rw [standingsPost_eq_nil t raw hsort,
        standingsPost_eq_nil _ raw (by simpa using hsort)]
    | cons s0 rest =>
      rw [standingsPost_eq_complete t raw s0 rest hall hsort,
        standingsPost_eq_complete _ raw s0 rest (by simpa using hall)
          (by simpa using hsort)]

/-- `updateStandings` only writes standings, winner and status. -/
theorem updateStandings_fields (t t2 : Tournament)
    (h : updateStandings t = some t2) :
    t2.ttype = t.ttype ∧ t2.participantIds = t.participantIds ∧
    t2.bracket = t.bracket ∧ t2.tmatches = t.tmatches := by
  unfold updateStandings at h
  obtain ⟨raw, _, hpost⟩ := Option.map_eq_some'.mp h
  rw [← hpost]
  exact standingsPost_fields t raw

/-- Recomputing standings from an already recomputed tournament reproduces
it exactly. -/
theorem updateStandings_idem (t t2 : Tournament)
    (h : updateStandings t = some t2) : updateStandings t2 = some t2 := by
  obtain ⟨hty, hpids, hbr, hms⟩ := updateStandings_fields t t2 h
  unfold updateStandings at h ⊢
  obtain ⟨raw, hraw, hpost⟩ := Option.map_eq_some'.mp h
  rw [hms, hpids, hraw, ← hpost]
  simp only [Option.map_some', Option.some_inj]
  exact standingsPost_idem t raw

/-- The round-robin overwrite is the identity on a second application. -/
theorem rmatch_set_idem (w : ℕ) (s : MatchScore) (m : RMatch) :
    ({ { m with winner := some w, score := s, completed := true } with
        winner := some w, score := s, completed := true } : RMatch) =
      { m with winner := some w, score := s, completed := true } := rfl

/-- Resubmitting a round-robin result with the same arguments succeeds
again and leaves the tournament state exactly as it was. -/
theorem rrUpdate_idempotent (t t' : Tournament) (k w : ℕ) (s : MatchScore)
    (h : rrUpdateMatchResult t k w s = some (true, t')) :
    rrUpdateMatchResult t' k w s = some (true, t') := by
  unfold rrUpdateMatchResult at h ⊢
  cases hfi : t.tmatches.findIdx? (fun m => m.num == k) with
  | none => rw [hfi] at h; simp at h
  | some mi =>
  rw [hfi] at h
  simp only at h
  obtain ⟨t2, ht2, htt⟩ := Option.map_eq_some'.mp h
  obtain rfl : t' = t2 := (((Prod.mk.injEq _ _ _ _).mp htt).2).symm
  obtain ⟨hty, hpids, hbr, hms⟩ := updateStandings_fields _ t' ht2
  simp only at hms
  -- the second lookup finds the same match
  have hfi2 : t'.tmatches.findIdx? (fun m => m.num == k) = some mi := by
    rw [hms, findIdx?_updAt_invariant (fun m => m.num == k)
      (fun m => { m with winner := some w, score := s, completed := true })
      (fun m => rfl) mi t.tmatches, hfi]
  rw [hfi2]
  simp only
  -- the second overwrite changes nothing
  have hset : updAt (fun m =>
      { m with winner := some w, score := s, completed := true }) mi
        t'.tmatches = t'.tmatches := by
    rw [hms, updAt_updAt_same]
    congr 1
  -- so the tournament fed to the standings recomputation is t' itself
  have heta : ({ t' with
      tmatches := updAt (fun m =>
        { m with winner := some w, score := s, completed := true }) mi
          t'.tmatches } : Tournament) = t' := by
    rw [hset]
  rw [heta, updateStandings_idem _ t' ht2]
  rfl

/-- Elimination-branch success keeps the tournament type and a live
bracket. -/
theorem elimUpdate_success_fields (t t' : Tournament) (r n w : ℕ)
    (s : MatchScore) (h : elimUpdateMatchResult t r n w s = (true, t')) :
    t'.ttype = t.ttype ∧ t'.bracket ≠ none := by
  cases hb : t.bracket with
  | none => simp [elimUpdateMatchResult, hb] at h
  | some br =>
  cases hf : elimFindMatch br r n with
  | none => simp [elimUpdateMatchResult, hb, hf] at h
  | some p =>
  obtain ⟨ri, mi⟩ := p
  cases hm0 : getMatch br ri mi with
  | none => simp [elimUpdateMatchResult, hb, hf, hm0] at h
  | some m0 =>
  rw [elimUpdate_success_spec t br r n w s ri mi m0 hb hf hm0] at h
  have ht' := (Prod.mk.injEq _ _ _ _).mp h |>.2
  rw [← ht']
  exact ⟨rfl, by simp⟩

/-- Round-robin-branch success keeps the tournament type and bracket. -/
theorem rrUpdate_success_fields (t t' : Tournament) (k w : ℕ)
    (s : MatchScore) (h : rrUpdateMatchResult t k w s = some (true, t')) :
    t'.ttype = t.ttype ∧ t'.bracket = t.bracket := by
  unfold rrUpdateMatchResult at h
  cases hfi : t.tmatches.findIdx? (fun m => m.num == k) with
  | none => rw [hfi] at h; simp at h
  | some mi =>
  rw [hfi] at h
  simp only at h
  obtain ⟨t2, ht2, htt⟩ := Option.map_eq_some'.mp h
  obtain rfl : t' = t2 := (((Prod.mk.injEq _ _ _ _).mp htt).2).symm
  obtain ⟨hty, _, hbr, _⟩ := updateStandings_fields _ t' ht2
  exact ⟨hty, hbr⟩

/-- C2 amended: `updateMatchResult` rejects nothing on resubmission — a
second call with the same matchId, winner and score succeeds again (there
is no `AlreadyResolved` failure) and silently overwrites the winner and
score with the values they already hold, leaving the visible tournament
state exactly identical to the state after the first call. -/
theorem updateMatchResult_idempotent (t t' : Tournament) (mid : MatchId)
    (w : ℕ) (s : MatchScore)
    (h : updateMatchResult t mid w s = some (true, t')) :
    updateMatchResult t' mid w s = some (true, t') := by
  unfold updateMatchResult at h ⊢
  by_cases hA : t.ttype = TType.elimination ∧ t.bracket ≠ none
  · rw [if_pos hA] at h
    cases mid with
    | plainId k => simp at h
    | bracketId r n =>
      have helim : elimUpdateMatchResult t r n w s = (true, t') :=
        Option.some_inj.mp h
      obtain ⟨hty, hbr⟩ := elimUpdate_success_fields t t' r n w s helim
      have hA' : t'.ttype = TType.elimination ∧ t'.bracket ≠ none :=
        ⟨hty.trans hA.1, hbr⟩
      rw [if_pos hA']
      show some (elimUpdateMatchResult t' r n w s) = some (true, t')
      rw [elimUpdate_idempotent t t' r n w s helim]
  · rw [if_neg hA] at h
    by_cases hB : t.ttype = TType.roundRobin
    · rw [if_pos hB] at h
      cases mid with
      | bracketId r n => simp at h
      | plainId k =>
        obtain ⟨hty, hbr⟩ := rrUpdate_success_fields t t' k w s h
        have hA' : ¬(t'.ttype = TType.elimination ∧ t'.bracket ≠ none) := by
          intro hc
          rw [hty, hB] at hc
          exact absurd hc.1 (by simp)
        rw [if_neg hA', if_pos (hty.trans hB)]
        exact rrUpdate_idempotent t t' k w s h
    · rw [if_neg hB] at h
      simp at h

/-- A two-player round-robin tournament (single match `match1`). -/
def rrT2 : Tournament := buildRRTournament [1, 2]

/-- `rrT2` after submitting the result of `match1` (winner 1, score 2:1). -/
def rrT2a : Tournament :=
  ((updateMatchResult rrT2 (MatchId.plainId 1) 1 ⟨2, 1⟩).getD
    (false, rrT2)).2

/-- C2 counterexample: the first submission for `match1` succeeds and
resolves the match; the second submission with the same matchId and winner
does not fail — it succeeds again (no `AlreadyResolved` rejection exists)
and returns the identical tournament state. -/
theorem resubmission_not_rejected :
    updateMatchResult rrT2 (MatchId.plainId 1) 1 ⟨2, 1⟩ =
      some (true, rrT2a) ∧
    updateMatchResult rrT2a (MatchId.plainId 1) 1 ⟨2, 1⟩ =
      some (true, rrT2a) := by decide

/-- Witness for the C2 amended theorem at the concrete two-player
tournament. -/
theorem updateMatchResult_idempotent_witness :
    updateMatchResult rrT2a (MatchId.plainId 1) 1 ⟨2, 1⟩ =
      some (true, rrT2a) :=
  updateMatchResult_idempotent rrT2 rrT2a (MatchId.plainId 1) 1 ⟨2, 1⟩
    (by decide)

/-!
## C4 — bracket round structure
-/

/-- The fuel-based ceiling log agrees with `Nat.clog 2` (fuel `n` always
suffices, since the argument at least halves each step). -/
theorem ceilLog2Aux_eq_clog (fuel m : ℕ) (h : m ≤ fuel) :
    ceilLog2Aux fuel m = Nat.clog 2 m := by
  induction fuel generalizing m with
  | zero =>
    interval_cases m
    rw [Nat.clog_zero_right]
    rfl
  | succ fuel ih =>
    by_cases hm : m ≤ 1
    · rw [ceilLog2Aux, if_pos hm, Nat.clog_of_right_le_one hm]
    · push_neg at hm
      rw [ceilLog2Aux, if_neg (by omega), ih ((m + 1) / 2) (by omega)]
      rw [Nat.clog_of_two_le one_lt_two hm]
      congr 2

/-- `ceilLog2` is `Nat.clog 2`. -/
theorem ceilLog2_eq_clog (n : ℕ) : ceilLog2 n = Nat.clog 2 n :=
  ceilLog2Aux_eq_clog n n le_rfl

/-- The tail sum of the bracket sizes: rounds 2..k contribute
`2^(k-1) - 1` matches in total. -/
theorem bracket_tail_sum (j : ℕ) :
    ((List.range' 2 j).map (fun r => 2 ^ (j + 1 - r))).sum = 2 ^ j - 1 := by
  induction j with
  | zero => rfl
  | succ j ih =>
    rw [List.range'_concat]
    rw [List.map_append, List.sum_append]
    have hmap : (List.range' 2 j).map (fun r => 2 ^ (j + 2 - r)) =
        (List.range' 2 j).map (fun r => 2 * 2 ^ (j + 1 - r)) := by
      apply List.map_congr_left
      intro r hr
      obtain ⟨i, hi, rfl⟩ := List.mem_range'.mp hr
      have : j + 2 - (2 + 1 * i) = (j + 1 - (2 + 1 * i)) + 1 := by omega
      rw [this, pow_succ]
      ring
    have h1 : 1 ≤ 2 ^ j := Nat.one_le_two_pow
    calc ((List.range' 2 j).map (fun r => 2 ^ (j + 1 + 1 - r))).sum +
          ((([2 + 1 * j]).map (fun r => 2 ^ (j + 1 + 1 - r))).sum)
        = 2 * ((List.range' 2 j).map (fun r => 2 ^ (j + 1 - r))).sum + 1 := by
          rw [show j + 1 + 1 = j + 2 from rfl, hmap]
          simp only [List.map_cons, List.map_nil, List.sum_cons, List.sum_nil]
          rw [List.sum_map_mul_left]
          have : j + 2 - (2 + 1 * j) = 0 := by omega
          rw [this]
          simp
      _ = 2 * (2 ^ j - 1) + 1 := by rw [ih]
      _ = 2 ^ (j + 1) - 1 := by
          rw [pow_succ]
          omega

/-- C4: for every roster of at least two participants, the generated
bracket has `ceil(log2(nextPowerOfTwo n))` rounds, round `r` (1-based, here
index `i = r - 1`) holds exactly `nextPowerOfTwo n / 2^r` matches — in
particular round 1 holds `nextPowerOfTwo n / 2` — and the total number of
matches over all rounds is `nextPowerOfTwo n - 1`. -/
theorem bracket_round_structure (pids : List ℕ) (h2 : 2 ≤ pids.length) :
    (generateEliminationBracket pids).length =
      Nat.clog 2 (2 ^ Nat.clog 2 pids.length) ∧
    (∀ i, i < (generateEliminationBracket pids).length →
      ((generateEliminationBracket pids).get? i).map List.length =
        some (2 ^ Nat.clog 2 pids.length / 2 ^ (i + 1))) ∧
    ((generateEliminationBracket pids).map List.length).sum =
      2 ^ Nat.clog 2 pids.length - 1 := by
  have hk1 : 1 ≤ Nat.clog 2 pids.length := Nat.clog_pos one_lt_two h2
  set k := Nat.clog 2 pids.length with hk
  have hceil : ceilLog2 pids.length = k := ceilLog2_eq_clog pids.length
  have hlen : (generateEliminationBracket pids).length = k := by
    simp only [generateEliminationBracket, hceil, List.length_cons,
      List.length_map, List.length_range']
    omega
  refine ⟨?_, ?_, ?_⟩
  · rw [hlen, Nat.clog_pow 2 k one_lt_two]
  · intro i hi
    rw [hlen] at hi
    cases i with
    | zero =>
      simp only [generateEliminationBracket, hceil, List.get?_cons_zero,
        Option.map_some', List.length_map, List.length_range]
      rfl
    | succ i' =>
      simp only [generateEliminationBracket, hceil, List.get?_cons_succ,
        List.get?_map]
      have hrange : (List.range' 2 (k - 1)).get? i' = some (2 + 1 * i') := by
        rw [List.get?_eq_getElem?, List.getElem?_range']
        omega
      have he : 2 + 1 * i' = i' + 1 + 1 := by omega
      rw [hrange]
      simp only [Option.map_some', List.length_map, List.length_range]
      rw [he]
  · simp only [generateEliminationBracket, hceil, List.map_cons,
      List.map_map, List.sum_cons]
    have hdiv2 : 2 ^ k / 2 = 2 ^ (k - 1) := by
      conv_lhs => rw [show k = (k - 1) + 1 by omega]
      rw [pow_succ, Nat.mul_div_cancel _ two_pos]
    have hfirst : ((List.range (2 ^ k / 2)).map (fun i =>
        ({ round := 1, num := i + 1, participant1 := pids.get? (2 * i),
           participant2 := pids.get? (2 * i + 1),
           winner := if pids.get? (2 * i + 1) = none
             then pids.get? (2 * i) else none,
           score := ⟨0, 0⟩ } : EMatch))).length = 2 ^ (k - 1) := by
      rw [List.length_map, List.length_range, hdiv2]
    have htail : ∀ r ∈ List.range' 2 (k - 1),
        (List.length ∘ fun r => (List.range (2 ^ k / 2 ^ r)).map (fun i =>
          ({ round := r, num := i + 1, participant1 := none,
             participant2 := none, winner := none,
             score := ⟨0, 0⟩ } : EMatch))) r = 2 ^ ((k - 1) + 1 - r) := by
      intro r hr
      obtain ⟨i, hi, rfl⟩ := List.mem_range'.mp hr
      simp only [Function.comp_apply, List.length_map, List.length_range]
      rw [Nat.pow_div (by omega) two_pos]
      congr 1
      omega
    rw [hfirst, List.map_congr_left htail, bracket_tail_sum (k - 1)]
    have h1 : 1 ≤ 2 ^ (k - 1) := Nat.one_le_two_pow
    have hkk : 2 ^ k = 2 * 2 ^ (k - 1) := by
      rw [← pow_succ']
      congr 1
      omega
    omega

/-- Witness for C4 at the five-participant roster. -/
theorem bracket_round_structure_witness :
    2 ≤ ([1, 2, 3, 4, 5] : List ℕ).length ∧
    (generateEliminationBracket [1, 2, 3, 4, 5]).length =
      Nat.clog 2 (2 ^ Nat.clog 2 ([1, 2, 3, 4, 5] : List ℕ).length) :=
  ⟨by decide, (bracket_round_structure [1, 2, 3, 4, 5] (by decide)).1⟩

/-!
## C8 — standings order

The comparator of `updateStandings` uses only points and wins; losses are
never compared and there is no explicit seed key.  Ties beyond
(points, wins) keep the order in which the entries were created, which is
roster (seed) order, because the sort is stable.
-/

/-- The comparator as arithmetic. -/
theorem standingLt_iff (a b : Standing) :
    standingLt a b = true ↔
      b.points < a.points ∨ (b.points = a.points ∧ b.wins < a.wins) := by
  simp [standingLt]

/-- The comparator is asymmetric. -/
theorem standingLt_asymm {a b : Standing} (h : standingLt a b = true) :
    standingLt b a = false := by
  rw [standingLt_iff] at h
  rw [← Bool.not_eq_true, standingLt_iff]
  omega

/-- Non-strictness is transitive. -/
theorem standingLt_le_trans {a b c : Standing}
    (h1 : standingLt b a = false) (h2 : standingLt c b = false) :
    standingLt c a = false := by
  rw [← Bool.not_eq_true, standingLt_iff] at h1 h2 ⊢
  omega

/-- Membership in a stable insertion. -/
theorem mem_stInsert {α : Type} (lt : α → α → Bool) (x z : α) (l : List α) :
    z ∈ stInsert lt x l ↔ z = x ∨ z ∈ l := by
  induction l with
  | nil => simp [stInsert]
  | cons y ys ih =>
    by_cases hy : lt y x
    · simp only [stInsert, if_pos hy, List.mem_cons, ih]
      tauto
    · simp only [stInsert, if_neg hy, List.mem_cons]

/-- The combined output invariant of the stable sort: the comparator holds
pairwise, and comparator ties are ordered by the auxiliary rank `ridx`. -/
def stOrdered (ridx : Standing → ℕ) (l : List Standing) : Prop :=
  l.Pairwise (fun a b => standingLt a b = true ∨
    (standingLt a b = false ∧ standingLt b a = false ∧ ridx a < ridx b))

/-- Auxiliary sortedness invariant. -/
def stWeakSorted (l : List Standing) : Prop :=
  l.Pairwise (fun a b => standingLt b a = false)

/-- Stable insertion preserves both invariants when the inserted element
ranks below everything present. -/
theorem stInsert_invariant (ridx : Standing → ℕ) (x : Standing)
    (l : List Standing) (hR : stOrdered ridx l) (hS : stWeakSorted l)
    (hx : ∀ y ∈ l, ridx x < ridx y) :
    stOrdered ridx (stInsert standingLt x l) ∧
    stWeakSorted (stInsert standingLt x l) := by
  induction l with
  | nil =>
    refine ⟨List.pairwise_singleton _ _, List.pairwise_singleton _ _⟩
  | cons y ys ih =>
    rw [stOrdered, List.pairwise_cons] at hR
    rw [stWeakSorted, List.pairwise_cons] at hS
    obtain ⟨hRy, hRtail⟩ := hR
    obtain ⟨hSy, hStail⟩ := hS
    by_cases hy : standingLt y x
    · rw [stInsert, if_pos hy]
      have hxy : ∀ z ∈ ys, ridx x < ridx z := fun z hz =>
        hx z (List.mem_cons_of_mem _ hz)
      obtain ⟨ihR, ihS⟩ := ih hRtail hStail hxy
      constructor
      · rw [stOrdered, List.pairwise_cons]
        refine ⟨?_, ihR⟩
        intro z hz
        rcases (mem_stInsert _ _ _ _).mp hz with rfl | hz'
        · exact Or.inl hy
        · exact hRy z hz'
      · rw [stWeakSorted, List.pairwise_cons]
        refine ⟨?_, ihS⟩
        intro z hz
        rcases (mem_stInsert _ _ _ _).mp hz with rfl | hz'
        · exact standingLt_asymm hy
        · exact hSy z hz'
    · rw [stInsert, if_neg hy]
      have hyx : standingLt y x = false := by
        rwa [Bool.not_eq_true] at hy
      have hzx : ∀ z ∈ ys, standingLt z x = false := fun z hz =>
        standingLt_le_trans hyx (hSy z hz)
      constructor
      · rw [stOrdered, List.pairwise_cons]
        constructor
        · intro z hz
          rcases List.mem_cons.mp hz with rfl | hz'
          · by_cases hxz : standingLt x z
            · exact Or.inl hxz
            · exact Or.inr ⟨by rwa [Bool.not_eq_true] at hxz, hyx,
                hx z (List.mem_cons_self _ _)⟩
          · by_cases hxz : standingLt x z
            · exact Or.inl hxz
            · exact Or.inr ⟨by rwa [Bool.not_eq_true] at hxz, hzx z hz',
                hx z (List.mem_cons_of_mem _ hz')⟩
        · exact List.pairwise_cons.mpr ⟨hRy, hRtail⟩
      · rw [stWeakSorted, List.pairwise_cons]
        constructor
        · intro z hz
          rcases List.mem_cons.mp hz with rfl | hz'
          · exact hyx
          · exact hzx z hz'
        · exact List.pairwise_cons.mpr ⟨hSy, hStail⟩

/-- Stable sort output is a permutation of its input. -/
theorem stInsert_perm {α : Type} (lt : α → α → Bool) (x : α) (l : List α) :
    List.Perm (stInsert lt x l) (x :: l) := by
  induction l with
  | nil => rfl
  | cons y ys ih =>
    by_cases hy : lt y x
    · rw [stInsert, if_pos hy]
      exact (ih.cons y).trans (List.Perm.swap x y ys)
    · rw [stInsert, if_neg hy]

theorem stSort_perm {α : Type} (lt : α → α → Bool) (l : List α) :
    List.Perm (stSort lt l) l := by
  induction l with
  | nil => rfl
  | cons x xs ih => exact (stInsert_perm lt x (stSort lt xs)).trans (ih.cons x)

/-- The stable sort of a list whose rank is strictly increasing satisfies
both invariants. -/
theorem stSort_invariant (ridx : Standing → ℕ) (l : List Standing)
    (hl : l.Pairwise (fun a b => ridx a < ridx b)) :
    stOrdered ridx (stSort standingLt l) := by
  suffices h : stOrdered ridx (stSort standingLt l) ∧
      stWeakSorted (stSort standingLt l) from h.1
  induction l with
  | nil => exact ⟨List.Pairwise.nil, List.Pairwise.nil⟩
  | cons x xs ih =>
    rw [List.pairwise_cons] at hl
    obtain ⟨ihR, ihS⟩ := ih hl.2
    refine stInsert_invariant ridx x (stSort standingLt xs) ihR ihS ?_
    intro y hy
    exact hl.1 y ((stSort_perm standingLt xs).mem_iff.mp hy)

/-- `bumpStanding` never changes participant identifiers. -/
theorem bumpStanding_pids (l l2 : List Standing) (pid : ℕ)
    (f : Standing → Standing) (hf : ∀ s, (f s).participantId = s.participantId)
    (h : bumpStanding l pid f = some l2) :
    l2.map (fun s => s.participantId) = l.map (fun s => s.participantId) := by
  unfold bumpStanding at h
  by_cases hc : l.any (fun s => s.participantId == pid)
  · rw [if_pos hc] at h
    rw [← Option.some_inj.mp h, List.map_map]
    apply List.map_congr_left
    intro s _
    simp only [Function.comp_apply]
    by_cases hs : s.participantId = pid
    · rw [if_pos hs, hf]
    · rw [if_neg hs]
  · rw [if_neg hc] at h
    simp at h

/-- Folding one match into the table never changes the identifier list. -/
theorem applyMatch_pids (l l2 : List Standing) (m : RMatch)
    (h : applyMatchToStandings l m = some l2) :
    l2.map (fun s => s.participantId) = l.map (fun s => s.participantId) := by
  unfold applyMatchToStandings at h
  by_cases hc : m.completed
  · rw [if_pos hc] at h
    cases hw : m.winner with
    | none =>
      simp only [hw] at h
      rw [← Option.some_inj.mp h]
    | some w =>
      simp only [hw] at h
      cases hb : bumpStanding l w (fun s =>
          { s with wins := s.wins + 1, points := s.points + 3 }) with
      | none => rw [hb] at h; simp at h
      | some l1 =>
        rw [hb] at h
        simp only [Option.some_bind] at h
        have h1 := bumpStanding_pids l l1 w (fun s =>
          { s with wins := s.wins + 1, points := s.points + 3 })
          (fun s => rfl) hb
        have h2 := bumpStanding_pids l1 l2
          (if m.participant1 = w then m.participant2 else m.participant1)
          (fun s => { s with losses := s.losses + 1 }) (fun s => rfl) h
        rw [h2, h1]
  · rw [if_neg hc] at h
    rw [← Option.some_inj.mp h]

/-- The whole fold never changes the identifier list. -/
theorem foldStandings_pids (ms : List RMatch) (l raw : List Standing)
    (h : ms.foldlM applyMatchToStandings l = some raw) :
    raw.map (fun s => s.participantId) = l.map (fun s => s.participantId) := by
  induction ms generalizing l with
  | nil =>
    obtain rfl : l = raw := Option.some_inj.mp h
    rfl
  | cons m ms ih =>
    rw [List.foldlM_cons] at h
    cases hone : applyMatchToStandings l m with
    | none =>
      rw [hone] at h
      exact Option.noConfusion h
    | some l1 =>
      rw [hone] at h
      have h2 : ms.foldlM applyMatchToStandings l1 = some raw := h
      rw [ih l1 h2, applyMatch_pids l l1 m hone]

/-- A standings list carrying the roster identifiers in order has strictly
increasing roster index. -/
theorem pairwise_roster_index (l : List Standing) (roster : List ℕ)
    (hmap : l.map (fun s => s.participantId) = roster) (hnd : roster.Nodup) :
    l.Pairwise (fun a b =>
      roster.indexOf a.participantId < roster.indexOf b.participantId) := by
  induction l generalizing roster with
  | nil => exact List.Pairwise.nil
  | cons x xs ih =>
    subst hmap
    rw [List.map_cons] at hnd
    rw [List.nodup_cons] at hnd
    obtain ⟨hx, hnd'⟩ := hnd
    have ihx := ih (xs.map (fun s => s.participantId)) rfl hnd'
    rw [List.pairwise_cons]
    constructor
    · intro b hb
      have hbmem : b.participantId ∈ xs.map (fun s => s.participantId) :=
        List.mem_map_of_mem _ hb
      have hbne : b.participantId ≠ x.participantId := fun he =>
        hx (he ▸ hbmem)
      rw [List.map_cons, List.indexOf_cons_self,
        List.indexOf_cons_ne _ hbne.symm]
      exact Nat.succ_pos _
    · refine ihx.imp_of_mem ?_
      intro a b ha hb hab
      have hane : a.participantId ≠ x.participantId := fun he =>
        hx (he ▸ List.mem_map_of_mem _ ha)
      have hbne : b.participantId ≠ x.participantId := fun he =>
        hx (he ▸ List.mem_map_of_mem _ hb)
      rw [List.map_cons, List.indexOf_cons_ne _ hane.symm,
        List.indexOf_cons_ne _ hbne.symm]
      exact Nat.succ_lt_succ hab

/-- C8 amended: the standings computed by `updateStandings` are ordered by
points descending, then wins descending; entries tied on both keep roster
(registration/seed) order — losses are never used as a sort key. -/
theorem standings_sort_order (t t2 : Tournament)
    (hnd : t.participantIds.Nodup) (h : updateStandings t = some t2) :
    t2.standings.Pairwise (fun a b =>
      b.points < a.points ∨
      (a.points = b.points ∧
        (b.wins < a.wins ∨
          (a.wins = b.wins ∧
            t.participantIds.indexOf a.participantId <
              t.participantIds.indexOf b.participantId)))) := by
  unfold updateStandings at h
  obtain ⟨raw, hraw, hpost⟩ := Option.map_eq_some'.mp h
  have hpids : raw.map (fun s => s.participantId) = t.participantIds := by
    rw [foldStandings_pids t.tmatches _ raw hraw, List.map_map]
    have hcomp : ((fun (s : Standing) => s.participantId) ∘ initStanding) =
        id := rfl
    rw [hcomp, List.map_id]
  have hridx := pairwise_roster_index raw t.participantIds hpids hnd
  have hsorted := stSort_invariant
    (fun s => t.participantIds.indexOf s.participantId) raw hridx
  have hstand : t2.standings = stSort standingLt raw := by
    rw [← hpost]
    cases hall : t.tmatches.all (fun m => m.completed) with
    | false => rw [standingsPost_eq_open t raw hall]
    | true =>
      cases hsort : stSort standingLt raw with
      | nil => rw [standingsPost_eq_nil t raw hsort]
      | cons s0 rest =>
        rw [standingsPost_eq_complete t raw s0 rest hall hsort]
  rw [hstand]
  refine hsorted.imp ?_
  intro a b hab
  rcases hab with hlt | ⟨hab1, hba, hidx⟩
  · rw [standingLt_iff] at hlt
    omega
  · rw [← Bool.not_eq_true, standingLt_iff] at hab1 hba
    have hp : a.points = b.points := by omega
    have hw : a.wins = b.wins := by omega
    exact Or.inr ⟨hp, Or.inr ⟨hw, hidx⟩⟩

/-- A round-robin tournament over roster 1..4 with two completed matches:
1 lost to 2 and 1 lost to 3. -/
def rrT8 : Tournament :=
  { ttype := TType.roundRobin, participantIds := [1, 2, 3, 4],
    bracket := none,
    tmatches :=
      [⟨1, 1, 1, 2, some 2, ⟨0, 1⟩, true⟩,
       ⟨2, 1, 1, 3, some 3, ⟨0, 1⟩, true⟩],
    standings := [], winnerId := none, status := TStatus.upcoming }

/-- C8 counterexample: the standings computed for `rrT8` place participant
1 (two losses) before participant 4 (no losses) although both have equal
points and wins, so the output is not sorted by points desc, wins desc,
losses asc, seed asc as claimed — losses are never compared. -/
theorem standings_sort_counterexample :
    (updateStandings rrT8).map Tournament.standings =
      some [⟨2, 1, 0, 3⟩, ⟨3, 1, 0, 3⟩, ⟨1, 0, 2, 0⟩, ⟨4, 0, 0, 0⟩] ∧
    ¬ (([⟨2, 1, 0, 3⟩, ⟨3, 1, 0, 3⟩, ⟨1, 0, 2, 0⟩, ⟨4, 0, 0, 0⟩] :
        List Standing).Pairwise (fun a b =>
      b.points < a.points ∨
      (a.points = b.points ∧
        (b.wins < a.wins ∨
          (a.wins = b.wins ∧
            (b.losses > a.losses ∨
              (a.losses = b.losses ∧
                ([1, 2, 3, 4] : List ℕ).indexOf a.participantId ≤
                  ([1, 2, 3, 4] : List ℕ).indexOf b.participantId))))))) := by
  constructor
  · decide
  · decide

/-- Witness for the C8 amended theorem at `rrT8`. -/
theorem standings_sort_order_witness :
    ([1, 2, 3, 4] : List ℕ).Nodup ∧
    ∃ t2, updateStandings rrT8 = some t2 ∧
      t2.standings.Pairwise (fun a b =>
        b.points < a.points ∨
        (a.points = b.points ∧
          (b.wins < a.wins ∨
            (a.wins = b.wins ∧
              rrT8.participantIds.indexOf a.participantId <
                rrT8.participantIds.indexOf b.participantId)))) := by
  refine ⟨by decide, ((updateStandings rrT8).getD rrT8), by decide, ?_⟩
  exact standings_sort_order rrT8 ((updateStandings rrT8).getD rrT8)
    (by decide) (by decide)

/-!
## C5 — round-robin pairing correctness

The circle method: the head stays fixed and the tail rotates right once per
round.  The lemmas below characterise the rotated list by indices, reduce
pair membership to modular arithmetic over the tail length `N` (odd), and
count every unordered roster pair exactly once.
-/

/-- The tail index (0-based within the rotating tail) found at tail
position `j` in round `t`, for a tail of length `N`. -/
def rrIdx (N t j : ℕ) : ℕ := (j + t * (N - 1)) % N

/-- The original padded index found at position `p` of the round-`t`
participant list: the head is fixed, tail positions rotate. -/
def rrPosIdx (N t p : ℕ) : ℕ :=
  if p = 0 then 0 else rrIdx N t (p - 1) + 1

theorem rrStep_cons (x : Option ℕ) (xs : List (Option ℕ)) :
    rrStep (x :: xs) = x :: xs.rotate (xs.length - 1) := rfl

/-- Iterated rotation in closed form. -/
theorem rrStep_iterate (x : Option ℕ) (xs : List (Option ℕ)) (t : ℕ) :
    rrStep^[t] (x :: xs) = x :: xs.rotate (t * (xs.length - 1)) := by
  induction t with
  | zero => simp
  | succ t ih =>
    rw [Function.iterate_succ_apply', ih, rrStep_cons,
      List.length_rotate, List.rotate_rotate]
    congr 1
    ring_nf

/-- Length of the iterated state. -/
theorem rrStep_iterate_length (x : Option ℕ) (xs : List (Option ℕ)) (t : ℕ) :
    (rrStep^[t] (x :: xs)).length = xs.length + 1 := by
  rw [rrStep_iterate]
  simp

/-- Position access into the round-`t` state. -/
theorem rrStep_iterate_get? (x : Option ℕ) (xs : List (Option ℕ)) (t p : ℕ)
    (hp : p < xs.length + 1) :
    (rrStep^[t] (x :: xs)).get? p =
      (x :: xs).get? (rrPosIdx xs.length t p) := by
  rw [rrStep_iterate]
  cases p with
  | zero => rfl
  | succ j =>
    have hj : j < xs.length := by omega
    rw [List.get?_cons_succ, List.get?_eq_getElem?, List.get?_eq_getElem?,
      List.getElem?_rotate hj]
    simp [rrPosIdx, rrIdx]

/-- `rrBuildAux` in closed form: round `t` pairs come from the `t`-times
rotated list. -/
theorem rrBuildAux_eq (k : ℕ) (l : List (Option ℕ)) :
    rrBuildAux k l =
      (List.range k).map (fun t => rrRoundPairs (rrStep^[t] l)) := by
  induction k generalizing l with
  | zero => rfl
  | succ k ih =>
    rw [rrBuildAux, ih (rrStep l), List.range_succ_eq_map]
    simp only [List.map_cons, Function.iterate_zero_apply, List.map_map]
    congr 1

/-- The inverse position map: the position of the rotated round-`t` list
holding the original padded index `q`. -/
def rrPos (N t q : ℕ) : ℕ :=
  if q = 0 then 0 else (q - 1 + t) % N + 1

/-- Solving `rrIdx N t j = r` for the tail position `j`. -/
theorem rrIdx_eq_iff (N t j r : ℕ) (hN : 0 < N) (hj : j < N) (hr : r < N) :
    rrIdx N t j = r ↔ j = (r + t) % N := by
  obtain ⟨M, rfl⟩ : ∃ M, N = M + 1 := ⟨N - 1, by omega⟩
  rw [rrIdx, Nat.add_sub_cancel]
  constructor
  · intro h
    have h2 : j + t * M ≡ r [MOD M + 1] := by
      show (j + t * M) % (M + 1) = r % (M + 1)
      rw [h, Nat.mod_eq_of_lt hr]
    have h3 := h2.add_right t
    have e : j + t * M + t = j + t * (M + 1) := by ring
    rw [e] at h3
    have h5 : (j + t * (M + 1)) % (M + 1) = (r + t) % (M + 1) := h3
    rw [Nat.add_mul_mod_self_right] at h5
    rwa [Nat.mod_eq_of_lt hj] at h5
  · intro h
    subst h
    have h1 : (r + t) % (M + 1) + t * M ≡ r + t + t * M [MOD M + 1] :=
      Nat.ModEq.add_right _ (Nat.mod_modEq (r + t) (M + 1))
    have e : r + t + t * M = r + t * (M + 1) := by ring
    rw [e] at h1
    have h2 : ((r + t) % (M + 1) + t * M) % (M + 1) =
        (r + t * (M + 1)) % (M + 1) := h1
    rwa [Nat.add_mul_mod_self_right, Nat.mod_eq_of_lt hr] at h2

/-- In round `t`, position `p` of the participant list holds padded index
`q` exactly when `p` is the computed position of `q`. -/
theorem rrPosIdx_eq_iff (N t p q : ℕ) (hN : 0 < N) (hp : p < N + 1)
    (hq : q < N + 1) : rrPosIdx N t p = q ↔ p = rrPos N t q := by
  cases p with
  | zero =>
    cases q with
    | zero => simp [rrPosIdx, rrPos]
    | succ r => simp [rrPosIdx, rrPos]
  | succ j =>
    cases q with
    | zero => simp [rrPosIdx, rrPos]
    | succ r =>
      have hj : j < N := by omega
      have hr : r < N := by omega
      rw [show rrPosIdx N t (j + 1) = rrIdx N t j + 1 from rfl,
        show rrPos N t (r + 1) = (r + t) % N + 1 from rfl]
      constructor
      · intro h
        have h1 : rrIdx N t j = r := by omega
        have h2 := (rrIdx_eq_iff N t j r hN hj hr).mp h1
        omega
      · intro h
        have h1 : j = (r + t) % N := by omega
        have h2 := (rrIdx_eq_iff N t j r hN hj hr).mpr h1
        omega

/-- Positions stay inside the padded range. -/
theorem rrPosIdx_lt (N t p : ℕ) (hN : 0 < N) : rrPosIdx N t p < N + 1 := by
  unfold rrPosIdx rrIdx
  split
  · omega
  · have h := Nat.mod_lt (p - 1 + t * (N - 1)) hN
    omega

/-- The inverse position stays inside the padded range. -/
theorem rrPos_lt (N t q : ℕ) (hN : 0 < N) : rrPos N t q < N + 1 := by
  unfold rrPos
  split
  · omega
  · have h := Nat.mod_lt (q - 1 + t) hN
    omega

/-- The position of index `q` indeed holds index `q`. -/
theorem rrPosIdx_rrPos (N t q : ℕ) (hN : 0 < N) (hq : q < N + 1) :
    rrPosIdx N t (rrPos N t q) = q :=
  (rrPosIdx_eq_iff N t _ q hN (rrPos_lt N t q hN) hq).mpr rfl

/-- The pair of padded indices meeting at slot `i` in round `t`. -/
def rrPairAt (N t i : ℕ) : ℕ × ℕ := (rrPosIdx N t i, rrPosIdx N t (N - i))

/-- All index pairs produced over the whole schedule. -/
def rrFlatIdx (N : ℕ) : List (ℕ × ℕ) :=
  (List.range N).flatMap (fun t =>
    (List.range ((N + 1) / 2)).map (rrPairAt N t))

/-- Looking a pair of padded indices up in the roster: `none` exactly when
either slot is the bye. -/
def rrLook (pids : List ℕ) (q : ℕ × ℕ) : Option (ℕ × ℕ) :=
  match pids.get? q.1, pids.get? q.2 with
  | some a, some b => some (a, b)
  | _, _ => none

/-- Counting occurrences of a single value in `range k`. -/
theorem countP_range_eq (k a : ℕ) :
    List.countP (fun i => decide (i = a)) (List.range k) =
      if a < k then 1 else 0 := by
  have h1 : List.countP (fun i => decide (i = a)) (List.range k) =
      List.count a (List.range k) := by
    rw [List.count_eq_countP]
    exact List.countP_congr (fun x _ => by simp)
  rw [h1]
  by_cases h : a < k
  · rw [if_pos h]
    exact List.count_eq_one_of_mem (List.nodup_range k) (List.mem_range.mpr h)
  · rw [if_neg h]
    exact List.count_eq_zero_of_not_mem (fun hmem => h (List.mem_range.mp hmem))

/-- A sum of indicator values is a count. -/
theorem sum_map_ite_countP (p : ℕ → Prop) [DecidablePred p] (l : List ℕ) :
    (l.map (fun t => if p t then 1 else 0)).sum =
      List.countP (fun t => decide (p t)) l := by
  induction l with
  | nil => rfl
  | cons a l ih =>
    rw [List.map_cons, List.sum_cons, ih, List.countP_cons]
    by_cases h : p a
    · rw [if_pos h, if_pos (by simp [h])]
      omega
    · rw [if_neg h, if_neg (by simp [h])]
      omega

/-- The congruence `a + t ≡ r (mod N)` has exactly one solution `t` per
period. -/
theorem countRange_mod_eq (N a r : ℕ) (hN : 0 < N) (hr : r < N) :
    List.countP (fun t => decide ((a + t) % N = r)) (List.range N) = 1 := by
  have hle : a ≤ N * a := Nat.le_mul_of_pos_left a hN
  have ht0 : (r + N * a + N - a) % N < N := Nat.mod_lt _ hN
  have hsol : (a + (r + N * a + N - a) % N) % N = r := by
    have h1 : (a + (r + N * a + N - a) % N) % N =
        (a + (r + N * a + N - a)) % N := Nat.add_mod_mod a _ N
    have e2 : N * (a + 1) = N * a + N := by ring
    have e : a + (r + N * a + N - a) = r + N * (a + 1) := by omega
    rw [h1, e, Nat.add_mul_mod_self_left, Nat.mod_eq_of_lt hr]
  have huniq : ∀ t < N, ((a + t) % N = r ↔ t = (r + N * a + N - a) % N) := by
    intro t ht
    constructor
    · intro h
      have h2 : a + t ≡ a + (r + N * a + N - a) % N [MOD N] := by
        show (a + t) % N = (a + (r + N * a + N - a) % N) % N
        rw [h, hsol]
      have h3 := Nat.ModEq.add_left_cancel' a h2
      have h4 : t % N = ((r + N * a + N - a) % N) % N := h3
      rwa [Nat.mod_eq_of_lt ht, Nat.mod_eq_of_lt ht0] at h4
    · intro h
      rw [h]
      exact hsol
  calc List.countP (fun t => decide ((a + t) % N = r)) (List.range N)
      = List.countP (fun t => decide (t = (r + N * a + N - a) % N))
          (List.range N) :=
        List.countP_congr (fun t htmem => by
          have ht := List.mem_range.mp htmem
          simp only [decide_eq_true_eq]
          exact huniq t ht)
    _ = 1 := by rw [countP_range_eq, if_pos ht0]

/-- An odd number is coprime to `2`. -/
theorem odd_gcd_two (N : ℕ) (h : N % 2 = 1) : Nat.gcd N 2 = 1 := by
  rw [Nat.gcd_comm, Nat.gcd_rec, h]
  rfl

/-- For odd `N`, the congruence `a + 2*t ≡ r (mod N)` has exactly one
solution `t` per period. -/
theorem countRange_mod2_eq (N a r : ℕ) (hN : N % 2 = 1) (hr : r < N) :
    List.countP (fun t => decide ((a + 2 * t) % N = r)) (List.range N) = 1 := by
  have hN0 : 0 < N := by omega
  have hle : a ≤ N * a := Nat.le_mul_of_pos_left a hN0
  have h2 : 2 * ((N + 1) / 2) = N + 1 := by omega
  have ht0 : ((r + N * a + N - a) * ((N + 1) / 2)) % N < N := Nat.mod_lt _ hN0
  have hsol :
      (a + 2 * (((r + N * a + N - a) * ((N + 1) / 2)) % N)) % N = r := by
    have s1 : a + 2 * (((r + N * a + N - a) * ((N + 1) / 2)) % N) ≡
        a + 2 * ((r + N * a + N - a) * ((N + 1) / 2)) [MOD N] :=
      Nat.ModEq.add_left a (Nat.ModEq.mul_left 2 (Nat.mod_modEq _ N))
    have e1 : a + 2 * ((r + N * a + N - a) * ((N + 1) / 2)) =
        a + (r + N * a + N - a) + (r + N * a + N - a) * N := by
      have e2 : 2 * ((r + N * a + N - a) * ((N + 1) / 2)) =
          (r + N * a + N - a) * (2 * ((N + 1) / 2)) := by ring
      rw [e2, h2]
      ring
    have e4 : N * (a + 1) = N * a + N := by ring
    have e3 : a + (r + N * a + N - a) = r + N * (a + 1) := by omega
    have s2 : (a + 2 * (((r + N * a + N - a) * ((N + 1) / 2)) % N)) % N =
        (a + (r + N * a + N - a) + (r + N * a + N - a) * N) % N := by
      have s3 := s1
      rw [e1] at s3
      exact s3
    rw [s2, Nat.add_mul_mod_self_right, e3, Nat.add_mul_mod_self_left,
      Nat.mod_eq_of_lt hr]
  have hgcd : Nat.gcd N 2 = 1 := odd_gcd_two N hN
  have huniq : ∀ t < N, ((a + 2 * t) % N = r ↔
      t = ((r + N * a + N - a) * ((N + 1) / 2)) % N) := by
    intro t ht
    constructor
    · intro h
      have hc : a + 2 * t ≡
          a + 2 * (((r + N * a + N - a) * ((N + 1) / 2)) % N) [MOD N] := by
        show (a + 2 * t) % N = _ % N
        rw [h, hsol]
      have hc2 := Nat.ModEq.add_left_cancel' a hc
      have hc3 := Nat.ModEq.cancel_left_div_gcd hN0 hc2
      rw [hgcd, Nat.div_one] at hc3
      have hc4 : t % N =
          (((r + N * a + N - a) * ((N + 1) / 2)) % N) % N := hc3
      rwa [Nat.mod_eq_of_lt ht, Nat.mod_eq_of_lt ht0] at hc4
    · intro h
      rw [h]
      exact hsol
  calc List.countP (fun t => decide ((a + 2 * t) % N = r)) (List.range N)
      = List.countP (fun t =>
          decide (t = ((r + N * a + N - a) * ((N + 1) / 2)) % N))
          (List.range N) :=
        List.countP_congr (fun t htmem => by
          have ht := List.mem_range.mp htmem
          simp only [decide_eq_true_eq]
          exact huniq t ht)
    _ = 1 := by rw [countP_range_eq, if_pos ht0]

/-- Per round, a fixed unordered index pair occupies exactly one slot when
the two positions are complementary, and none otherwise. -/
theorem rrSlot_count (N t x y : ℕ) (hN : N % 2 = 1) (hx : x < N + 1)
    (hy : y < N + 1) (hxy : x ≠ y) :
    List.countP (fun q => decide ((q.1 = x ∧ q.2 = y) ∨ (q.1 = y ∧ q.2 = x)))
        ((List.range ((N + 1) / 2)).map (rrPairAt N t)) =
      if rrPos N t x + rrPos N t y = N then 1 else 0 := by
  have hN0 : 0 < N := by omega
  have hpx : rrPos N t x < N + 1 := rrPos_lt N t x hN0
  have hpy : rrPos N t y < N + 1 := rrPos_lt N t y hN0
  have hpxy : rrPos N t x ≠ rrPos N t y := by
    intro h
    apply hxy
    have h1 := rrPosIdx_rrPos N t x hN0 hx
    have h2 := rrPosIdx_rrPos N t y hN0 hy
    rw [h] at h1
    rw [h2] at h1
    exact h1.symm
  rw [List.countP_map]
  have key : ∀ i ∈ List.range ((N + 1) / 2),
      (((fun q => decide ((q.1 = x ∧ q.2 = y) ∨ (q.1 = y ∧ q.2 = x))) ∘
        rrPairAt N t) i = true ↔
        ((i = rrPos N t x ∧ N - i = rrPos N t y) ∨
         (i = rrPos N t y ∧ N - i = rrPos N t x))) := by
    intro i hi
    have hilt := List.mem_range.mp hi
    have hi1 : i < N + 1 := by omega
    have hi2 : N - i < N + 1 := by omega
    simp only [Function.comp_apply, rrPairAt, decide_eq_true_eq]
    rw [rrPosIdx_eq_iff N t i x hN0 hi1 hx,
      rrPosIdx_eq_iff N t (N - i) y hN0 hi2 hy,
      rrPosIdx_eq_iff N t i y hN0 hi1 hy,
      rrPosIdx_eq_iff N t (N - i) x hN0 hi2 hx]
  by_cases hcond : rrPos N t x + rrPos N t y = N
  · rw [if_pos hcond]
    rcases Nat.lt_or_ge (rrPos N t x) (rrPos N t y) with hlt | hge
    · have hhalf : rrPos N t x < (N + 1) / 2 := by omega
      have hcc : List.countP
          ((fun q => decide ((q.1 = x ∧ q.2 = y) ∨ (q.1 = y ∧ q.2 = x))) ∘
            rrPairAt N t) (List.range ((N + 1) / 2)) =
          List.countP (fun i => decide (i = rrPos N t x))
            (List.range ((N + 1) / 2)) :=
        List.countP_congr (fun i hi => by
          rw [key i hi]
          simp only [decide_eq_true_eq]
          have hilt := List.mem_range.mp hi
          constructor
          · rintro (⟨h1, h2⟩ | ⟨h1, h2⟩)
            · exact h1
            · omega
          · intro h
            left
            refine ⟨h, by omega⟩)
      rw [hcc, countP_range_eq, if_pos hhalf]
    · have hlt2 : rrPos N t y < rrPos N t x := by omega
      have hhalf : rrPos N t y < (N + 1) / 2 := by omega
      have hcc : List.countP
          ((fun q => decide ((q.1 = x ∧ q.2 = y) ∨ (q.1 = y ∧ q.2 = x))) ∘
            rrPairAt N t) (List.range ((N + 1) / 2)) =
          List.countP (fun i => decide (i = rrPos N t y))
            (List.range ((N + 1) / 2)) :=
        List.countP_congr (fun i hi => by
          rw [key i hi]
          simp only [decide_eq_true_eq]
          have hilt := List.mem_range.mp hi
          constructor
          · rintro (⟨h1, h2⟩ | ⟨h1, h2⟩)
            · omega
            · exact h1
          · intro h
            right
            refine ⟨h, by omega⟩)
      rw [hcc, countP_range_eq, if_pos hhalf]
  · rw [if_neg hcond]
    refine List.countP_eq_zero.mpr (fun i hi => ?_)
    intro hcontra
    have hd := (key i hi).mp hcontra
    have hilt := List.mem_range.mp hi
    rcases hd with ⟨h1, h2⟩ | ⟨h1, h2⟩
    · exact hcond (by omega)
    · exact hcond (by omega)

/-- Per round, exactly one slot touches a fixed padded index (used for the
bye index of an odd roster). -/
theorem rrSlot_count_bye (N t : ℕ) (hN : N % 2 = 1) :
    List.countP (fun q => decide (q.1 = N ∨ q.2 = N))
        ((List.range ((N + 1) / 2)).map (rrPairAt N t)) = 1 := by
  have hN0 : 0 < N := by omega
  have hpN : rrPos N t N < N + 1 := rrPos_lt N t N hN0
  rw [List.countP_map]
  have key : ∀ i ∈ List.range ((N + 1) / 2),
      (((fun q => decide (q.1 = N ∨ q.2 = N)) ∘ rrPairAt N t) i = true ↔
        (i = rrPos N t N ∨ N - i = rrPos N t N)) := by
    intro i hi
    have hilt := List.mem_range.mp hi
    have hi1 : i < N + 1 := by omega
    have hi2 : N - i < N + 1 := by omega
    simp only [Function.comp_apply, rrPairAt, decide_eq_true_eq]
    rw [rrPosIdx_eq_iff N t i N hN0 hi1 (by omega),
      rrPosIdx_eq_iff N t (N - i) N hN0 hi2 (by omega)]
  by_cases hpos : rrPos N t N < (N + 1) / 2
  · have hcc : List.countP
        ((fun q => decide (q.1 = N ∨ q.2 = N)) ∘ rrPairAt N t)
        (List.range ((N + 1) / 2)) =
        List.countP (fun i => decide (i = rrPos N t N))
          (List.range ((N + 1) / 2)) :=
      List.countP_congr (fun i hi => by
        rw [key i hi]
        simp only [decide_eq_true_eq]
        have hilt := List.mem_range.mp hi
        constructor
        · rintro (h | h)
          · exact h
          · omega
        · intro h
          left
          exact h)
    rw [hcc, countP_range_eq, if_pos hpos]
  · have hhe : N - rrPos N t N < (N + 1) / 2 := by omega
    have hcc : List.countP
        ((fun q => decide (q.1 = N ∨ q.2 = N)) ∘ rrPairAt N t)
        (List.range ((N + 1) / 2)) =
        List.countP (fun i => decide (i = N - rrPos N t N))
          (List.range ((N + 1) / 2)) :=
      List.countP_congr (fun i hi => by
        rw [key i hi]
        simp only [decide_eq_true_eq]
        have hilt := List.mem_range.mp hi
        constructor
        · rintro (h | h)
          · omega
          · omega
        · intro h
          right
          omega)
    rw [hcc, countP_range_eq, if_pos hhe]

/-- Across the rounds, the positions of two distinct indices are
complementary exactly once. -/
theorem rrCond_count (N x y : ℕ) (hN : N % 2 = 1) (hx : x < N + 1)
    (hy : y < N + 1) (hxy : x ≠ y) :
    List.countP (fun t => decide (rrPos N t x + rrPos N t y = N))
        (List.range N) = 1 := by
  have hN0 : 0 < N := by omega
  rcases Nat.eq_zero_or_pos x with hx0 | hx1
  · subst hx0
    have hy1 : 1 ≤ y := by omega
    have hcc : List.countP (fun t => decide (rrPos N t 0 + rrPos N t y = N))
        (List.range N) =
        List.countP (fun t => decide ((y - 1 + t) % N = N - 1))
          (List.range N) :=
      List.countP_congr (fun t htm => by
        simp only [decide_eq_true_eq]
        have e0 : rrPos N t 0 = 0 := rfl
        have ey : rrPos N t y = (y - 1 + t) % N + 1 := by
          unfold rrPos
          rw [if_neg (by omega)]
        rw [e0, ey]
        have hm := Nat.mod_lt (y - 1 + t) hN0
        omega)
    rw [hcc]
    exact countRange_mod_eq N (y - 1) (N - 1) hN0 (by omega)
  · rcases Nat.eq_zero_or_pos y with hy0 | hy1
    · subst hy0
      have hcc : List.countP (fun t => decide (rrPos N t x + rrPos N t 0 = N))
          (List.range N) =
          List.countP (fun t => decide ((x - 1 + t) % N = N - 1))
            (List.range N) :=
        List.countP_congr (fun t htm => by
          simp only [decide_eq_true_eq]
          have e0 : rrPos N t 0 = 0 := rfl
          have ex : rrPos N t x = (x - 1 + t) % N + 1 := by
            unfold rrPos
            rw [if_neg (by omega)]
          rw [e0, ex]
          have hm := Nat.mod_lt (x - 1 + t) hN0
          omega)
      rw [hcc]
      exact countRange_mod_eq N (x - 1) (N - 1) hN0 (by omega)
    · have hN3 : 3 ≤ N := by omega
      have hcc : List.countP (fun t => decide (rrPos N t x + rrPos N t y = N))
          (List.range N) =
          List.countP
            (fun t => decide (((x - 1) + (y - 1) + 2 * t) % N = N - 2))
            (List.range N) :=
        List.countP_congr (fun t htm => by
          simp only [decide_eq_true_eq]
          have ex : rrPos N t x = (x - 1 + t) % N + 1 := by
            unfold rrPos
            rw [if_neg (by omega)]
          have ey : rrPos N t y = (y - 1 + t) % N + 1 := by
            unfold rrPos
            rw [if_neg (by omega)]
          rw [ex, ey]
          have hA : (x - 1 + t) % N < N := Nat.mod_lt _ hN0
          have hB : (y - 1 + t) % N < N := Nat.mod_lt _ hN0
          have c1 : (x - 1 + t) % N + (y - 1 + t) % N ≡
              (x - 1 + t) + (y - 1 + t) [MOD N] :=
            Nat.ModEq.add (Nat.mod_modEq _ N) (Nat.mod_modEq _ N)
          have c2 : (x - 1 + t) + (y - 1 + t) = (x - 1) + (y - 1) + 2 * t := by
            ring
          have hcong : ((x - 1 + t) % N + (y - 1 + t) % N) % N =
              ((x - 1) + (y - 1) + 2 * t) % N := by
            have c3 : ((x - 1 + t) % N + (y - 1 + t) % N) % N =
                ((x - 1 + t) + (y - 1 + t)) % N := c1
            rw [c3, c2]
          constructor
          · intro h
            have hAB : (x - 1 + t) % N + (y - 1 + t) % N = N - 2 := by omega
            rw [← hcong, hAB, Nat.mod_eq_of_lt (by omega)]
          · intro h
            have hs : ((x - 1 + t) % N + (y - 1 + t) % N) % N = N - 2 := by
              rw [hcong]
              exact h
            have hdm := Nat.div_add_mod
              ((x - 1 + t) % N + (y - 1 + t) % N) N
            have hdiv : ((x - 1 + t) % N + (y - 1 + t) % N) / N < 2 :=
              (Nat.div_lt_iff_lt_mul hN0).mpr (by omega)
            obtain ⟨d, hd⟩ : ∃ d,
                ((x - 1 + t) % N + (y - 1 + t) % N) / N = d := ⟨_, rfl⟩
            rw [hd] at hdm hdiv
            have hq01 : d = 0 ∨ d = 1 := by omega
            rcases hq01 with hq | hq
            · rw [hq] at hdm
              simp only [Nat.mul_zero, Nat.zero_add] at hdm
              omega
            · rw [hq] at hdm
              simp only [Nat.mul_one] at hdm
              exfalso
              have hA1 : (x - 1 + t) % N = N - 1 := by omega
              have hB1 : (y - 1 + t) % N = N - 1 := by omega
              have hEq : (x - 1 + t) % N = (y - 1 + t) % N := by
                rw [hA1, hB1]
              have hme : x - 1 + t ≡ y - 1 + t [MOD N] := hEq
              have hme2 := Nat.ModEq.add_right_cancel' t hme
              have hv : (x - 1) % N = (y - 1) % N := hme2
              rw [Nat.mod_eq_of_lt (by omega),
                Nat.mod_eq_of_lt (by omega)] at hv
              omega)
      rw [hcc]
      exact countRange_mod2_eq N ((x - 1) + (y - 1)) (N - 2) hN (by omega)

/-- Sum of a constant over a list. -/
theorem sum_map_const (l : List ℕ) (c : ℕ) :
    (l.map (fun t => c)).sum = l.length * c := by
  induction l with
  | nil => simp
  | cons a l ih => simp [ih, Nat.succ_mul, Nat.add_comm]

/-- Every unordered pair of distinct padded indices occurs exactly once in
the full index schedule. -/
theorem rrFlatIdx_count (N x y : ℕ) (hN : N % 2 = 1) (hx : x < N + 1)
    (hy : y < N + 1) (hxy : x ≠ y) :
    List.countP
        (fun q => decide ((q.1 = x ∧ q.2 = y) ∨ (q.1 = y ∧ q.2 = x)))
        (rrFlatIdx N) = 1 := by
  rw [rrFlatIdx, List.countP_flatMap]
  have hmap : (List.range N).map
      (List.countP
          (fun q => decide ((q.1 = x ∧ q.2 = y) ∨ (q.1 = y ∧ q.2 = x))) ∘
        (fun t => (List.range ((N + 1) / 2)).map (rrPairAt N t))) =
      (List.range N).map
        (fun t => if rrPos N t x + rrPos N t y = N then 1 else 0) :=
    List.map_congr_left (fun t htm => rrSlot_count N t x y hN hx hy hxy)
  rw [hmap, sum_map_ite_countP
    (fun t => rrPos N t x + rrPos N t y = N) (List.range N)]
  exact rrCond_count N x y hN hx hy hxy

/-- The bye index of an odd roster is touched exactly once per round. -/
theorem rrFlatIdx_countBye (N : ℕ) (hN : N % 2 = 1) :
    List.countP (fun q => decide (q.1 = N ∨ q.2 = N)) (rrFlatIdx N) = N := by
  rw [rrFlatIdx, List.countP_flatMap]
  have hmap : (List.range N).map
      (List.countP (fun q => decide (q.1 = N ∨ q.2 = N)) ∘
        (fun t => (List.range ((N + 1) / 2)).map (rrPairAt N t))) =
      (List.range N).map (fun t => 1) :=
    List.map_congr_left (fun t htm => rrSlot_count_bye N t hN)
  rw [hmap, sum_map_const, List.length_range, Nat.mul_one]

/-- Total number of index pairs over the whole schedule. -/
theorem rrFlatIdx_length (N : ℕ) :
    (rrFlatIdx N).length = N * ((N + 1) / 2) := by
  rw [rrFlatIdx, List.length_flatMap]
  have hmap : (List.range N).map
      (List.length ∘
        (fun t => (List.range ((N + 1) / 2)).map (rrPairAt N t))) =
      (List.range N).map (fun t => (N + 1) / 2) :=
    List.map_congr_left (fun t htm => by
      simp [List.length_map, List.length_range])
  rw [hmap, sum_map_const, List.length_range]

/-- Index pairs of the schedule are inside the padded range and have
distinct components. -/
theorem rrFlatIdx_mem (N : ℕ) (hN : N % 2 = 1) (q : ℕ × ℕ)
    (hq : q ∈ rrFlatIdx N) :
    q.1 < N + 1 ∧ q.2 < N + 1 ∧ q.1 ≠ q.2 := by
  have hN0 : 0 < N := by omega
  rw [rrFlatIdx] at hq
  rcases List.mem_flatMap.mp hq with ⟨t, htm, hq2⟩
  rcases List.mem_map.mp hq2 with ⟨i, him, rfl⟩
  have hilt := List.mem_range.mp him
  have hi1 : i < N + 1 := by omega
  have hi2 : N - i < N + 1 := by omega
  refine ⟨rrPosIdx_lt N t i hN0, rrPosIdx_lt N t (N - i) hN0, ?_⟩
  intro hEq
  have h1 : rrPosIdx N t i = rrPosIdx N t (N - i) := hEq
  have hv : rrPosIdx N t i < N + 1 := rrPosIdx_lt N t i hN0
  have h2 := (rrPosIdx_eq_iff N t i (rrPosIdx N t i) hN0 hi1 hv).mp rfl
  have h3 := (rrPosIdx_eq_iff N t (N - i) (rrPosIdx N t i) hN0 hi2 hv).mp
    h1.symm
  omega

/-- Length of the padded roster. -/
theorem rrPadded_length (pids : List ℕ) :
    (rrPadded pids).length =
      pids.length + (if pids.length % 2 = 1 then 1 else 0) := by
  rw [rrPadded]
  split
  · simp
  · simp

/-- Looking a position up in the padded roster gives the roster lookup,
with the bye slot reading as `none`. -/
theorem rrPadded_get? (pids : List ℕ) (q : ℕ)
    (hq : q < (rrPadded pids).length) :
    (rrPadded pids).get? q = some (pids.get? q) := by
  have hlen := rrPadded_length pids
  by_cases h : q < pids.length
  · rw [rrPadded, List.get?_eq_getElem?, List.getElem?_append,
      if_pos (by simpa using h), List.getElem?_map,
      List.getElem?_eq_getElem h, List.get?_eq_getElem?,
      List.getElem?_eq_getElem h]
    rfl
  · have hodd : pids.length % 2 = 1 := by
      by_contra hodd
      rw [if_neg hodd] at hlen
      omega
    have hqe : q = pids.length := by
      rw [if_pos hodd] at hlen
      omega
    subst hqe
    rw [rrPadded, if_pos hodd, List.get?_eq_getElem?, List.getElem?_append,
      if_neg (by simp), List.length_map, Nat.sub_self,
      show pids.get? pids.length = none from
        List.get?_eq_none.mpr (Nat.le_refl _)]
    rfl

/-- The pairs of one generated round are the slot-pair lookups of the
rotated index positions. -/
theorem rrPairRounds_eq (pids : List ℕ) (hn : 2 ≤ pids.length) :
    rrPairRounds pids =
      (List.range ((rrPadded pids).length - 1)).map (fun t =>
        ((List.range (((rrPadded pids).length - 1 + 1) / 2)).map
            (rrPairAt ((rrPadded pids).length - 1) t)).filterMap
          (rrLook pids)) := by
  have hplen : 2 ≤ (rrPadded pids).length := by
    rw [rrPadded_length]
    split <;> omega
  obtain ⟨x, xs, hP⟩ : ∃ x xs, rrPadded pids = x :: xs := by
    cases hPc : rrPadded pids with
    | nil =>
      rw [hPc] at hplen
      simp at hplen
    | cons a l => exact ⟨a, l, rfl⟩
  have hlen1 : (rrPadded pids).length = xs.length + 1 := by
    rw [hP]
    rfl
  have hN0 : 0 < xs.length := by omega
  rw [rrPairRounds, hP, rrBuildAux_eq]
  have hll : (x :: xs).length - 1 = xs.length := by simp
  rw [hll]
  apply List.map_congr_left
  intro t htm
  rw [List.filterMap_map]
  have hLlen : (rrStep^[t] (x :: xs)).length = xs.length + 1 :=
    rrStep_iterate_length x xs t
  unfold rrRoundPairs
  rw [hLlen]
  apply List.filterMap_congr
  intro i him
  have hi := List.mem_range.mp him
  have hp1 : i < xs.length + 1 := by omega
  have hp2 : xs.length - i < xs.length + 1 := by omega
  have hg1 := rrStep_iterate_get? x xs t i hp1
  have hg2 := rrStep_iterate_get? x xs t (xs.length - i) hp2
  have hidx1 : rrPosIdx xs.length t i < xs.length + 1 :=
    rrPosIdx_lt xs.length t i hN0
  have hidx2 : rrPosIdx xs.length t (xs.length - i) < xs.length + 1 :=
    rrPosIdx_lt xs.length t (xs.length - i) hN0
  have hv1 : (x :: xs).get? (rrPosIdx xs.length t i) =
      some (pids.get? (rrPosIdx xs.length t i)) := by
    rw [← hP]
    exact rrPadded_get? pids _ (by omega)
  have hv2 : (x :: xs).get? (rrPosIdx xs.length t (xs.length - i)) =
      some (pids.get? (rrPosIdx xs.length t (xs.length - i))) := by
    rw [← hP]
    exact rrPadded_get? pids _ (by omega)
  have he : xs.length + 1 - 1 - i = xs.length - i := by omega
  rw [he, hg1, hg2, hv1, hv2]
  rfl

/-- The flattened schedule pairs are roster lookups of the flat index
schedule. -/
theorem rrFlat_eq (pids : List ℕ) (hn : 2 ≤ pids.length) :
    (rrPairRounds pids).flatten =
      (rrFlatIdx ((rrPadded pids).length - 1)).filterMap (rrLook pids) := by
  rw [rrPairRounds_eq pids hn, ← List.flatMap_def, rrFlatIdx,
    List.filterMap_flatMap]

/-- Projecting the stored matches to their participant pairs recovers the
flattened per-round pairs. -/
theorem sched_pairs (pids : List ℕ) :
    (generateRoundRobinSchedule pids).map
        (fun rm => (rm.participant1, rm.participant2)) =
      (rrPairRounds pids).flatten := by
  unfold generateRoundRobinSchedule
  rw [List.map_map]
  have e1 : ((fun rm : RMatch => (rm.participant1, rm.participant2)) ∘
      (fun jp : ℕ × (ℕ × (ℕ × ℕ)) =>
        { num := jp.1 + 1, round := jp.2.1, participant1 := jp.2.2.1,
          participant2 := jp.2.2.2, winner := none, score := ⟨0, 0⟩,
          completed := false : RMatch })) =
      ((fun rp : ℕ × (ℕ × ℕ) => rp.2) ∘ Prod.snd) := rfl
  rw [e1, ← List.map_map, List.enum_map_snd, List.map_flatMap]
  have e2 : (fun tp : ℕ × List (ℕ × ℕ) =>
      List.map (fun rp : ℕ × (ℕ × ℕ) => rp.2)
        (List.map (fun p => (tp.1 + 1, p)) tp.2)) =
      (fun tp : ℕ × List (ℕ × ℕ) => tp.2) := by
    funext tp
    rw [List.map_map]
    exact List.map_id tp.2
  rw [e2]
  rw [show (fun tp : ℕ × List (ℕ × ℕ) => tp.2) =
      (Prod.snd : ℕ × List (ℕ × ℕ) → List (ℕ × ℕ)) from rfl]
  rw [List.flatMap_def, List.enum_map_snd]

/-- In a duplicate-free roster a successful lookup pins down the index. -/
theorem roster_get?_iff (pids : List ℕ) (hnd : pids.Nodup) (x : ℕ)
    (hx : x ∈ pids) (j : ℕ) :
    pids.get? j = some x ↔ j = pids.indexOf x := by
  constructor
  · intro h
    have hj : j < pids.length := by
      by_contra hj
      rw [List.get?_eq_none.mpr (by omega)] at h
      exact Option.noConfusion h
    have h2 : pids.get? (pids.indexOf x) = some x := List.indexOf_get? hx
    exact List.get?_inj hj hnd (h.trans h2.symm)
  · intro h
    rw [h]
    exact List.indexOf_get? hx

/-- Pair-count arithmetic for an even roster padded to size `2k + 2`. -/
theorem rr_arith_even (k : ℕ) :
    (2 * k + 1) * ((2 * k + 1 + 1) / 2) =
      (2 * k + 1 + 1) * ((2 * k + 1 + 1) - 1) / 2 := by
  have h1 : (2 * k + 1 + 1) / 2 = k + 1 := by omega
  have h2 : (2 * k + 1 + 1) - 1 = 2 * k + 1 := by omega
  rw [h1, h2]
  have h3 : (2 * k + 1 + 1) * (2 * k + 1) = 2 * ((k + 1) * (2 * k + 1)) := by
    ring
  rw [h3, Nat.mul_div_cancel_left _ (by norm_num : 0 < 2)]
  ring

/-- Pair-count arithmetic for an odd roster of size `2k + 1`, subtracting
the bye pairings. -/
theorem rr_arith_odd (k : ℕ) :
    (2 * k + 1) * ((2 * k + 1 + 1) / 2) - (2 * k + 1) =
      (2 * k + 1) * ((2 * k + 1) - 1) / 2 := by
  have h1 : (2 * k + 1 + 1) / 2 = k + 1 := by omega
  have h2 : (2 * k + 1) - 1 = 2 * k := by omega
  rw [h1, h2]
  have h3 : (2 * k + 1) * (2 * k) = 2 * ((2 * k + 1) * k) := by ring
  rw [h3, Nat.mul_div_cancel_left _ (by norm_num : 0 < 2)]
  have h4 : (2 * k + 1) * (k + 1) = (2 * k + 1) * k + (2 * k + 1) := by ring
  omega

/-- C5: for every duplicate-free roster of at least two participants,
`generateRoundRobinSchedule` stores exactly `n*(n-1)/2` matches; every
stored match pairs two distinct roster members (never the synthetic bye
slot), and every unordered pair of distinct participants appears in
exactly one stored match. -/
theorem roundRobin_pairs (pids : List ℕ) (hn : 2 ≤ pids.length)
    (hnd : pids.Nodup) :
    (generateRoundRobinSchedule pids).length =
        pids.length * (pids.length - 1) / 2 ∧
    (∀ rm ∈ generateRoundRobinSchedule pids,
        rm.participant1 ∈ pids ∧ rm.participant2 ∈ pids ∧
          rm.participant1 ≠ rm.participant2) ∧
    (∀ x ∈ pids, ∀ y ∈ pids, x ≠ y →
        List.countP (fun rm =>
            decide ((rm.participant1 = x ∧ rm.participant2 = y) ∨
              (rm.participant1 = y ∧ rm.participant2 = x)))
          (generateRoundRobinSchedule pids) = 1) := by
  have hplen := rrPadded_length pids
  obtain ⟨N, hN1⟩ : ∃ N, (rrPadded pids).length = N + 1 := by
    refine ⟨(rrPadded pids).length - 1, ?_⟩
    split at hplen <;> omega
  have hNdef : (rrPadded pids).length - 1 = N := by omega
  have hNodd : N % 2 = 1 := by
    split at hplen <;> omega
  have hcase : pids.length = N + 1 ∨ pids.length = N := by
    split at hplen <;> omega
  have hle : pids.length ≤ N + 1 := by
    rcases hcase with h | h <;> omega
  have hflat : (rrPairRounds pids).flatten =
      (rrFlatIdx N).filterMap (rrLook pids) := by
    rw [← hNdef]
    exact rrFlat_eq pids hn
  have hproj := sched_pairs pids
  have hlenS : (generateRoundRobinSchedule pids).length =
      List.countP (fun q => (rrLook pids q).isSome) (rrFlatIdx N) := by
    have h1 : ((generateRoundRobinSchedule pids).map
        (fun rm => (rm.participant1, rm.participant2))).length =
        (generateRoundRobinSchedule pids).length := by
      rw [List.length_map]
    rw [← h1, hproj, hflat, List.length_filterMap_eq_countP]
  have hsome : ∀ q ∈ rrFlatIdx N,
      ((rrLook pids q).isSome = true ↔
        (q.1 < pids.length ∧ q.2 < pids.length)) := by
    intro q hq
    constructor
    · intro h
      rcases Nat.lt_or_ge q.1 pids.length with h1 | h1
      · rcases Nat.lt_or_ge q.2 pids.length with h2 | h2
        · exact ⟨h1, h2⟩
        · have hg : pids.get? q.2 = none := List.get?_eq_none.mpr h2
          have hnone : rrLook pids q = none := by
            unfold rrLook
            rw [hg]
            cases pids.get? q.1 <;> rfl
          rw [hnone] at h
          exact Bool.noConfusion h
      · have hg : pids.get? q.1 = none := List.get?_eq_none.mpr h1
        have hnone : rrLook pids q = none := by
          unfold rrLook
          rw [hg]
        rw [hnone] at h
        exact Bool.noConfusion h
    · rintro ⟨h1, h2⟩
      obtain ⟨a, ha⟩ : ∃ a, pids.get? q.1 = some a := by
        cases hg : pids.get? q.1 with
        | none =>
          rw [List.get?_eq_none] at hg
          omega
        | some a => exact ⟨a, rfl⟩
      obtain ⟨b, hb⟩ : ∃ b, pids.get? q.2 = some b := by
        cases hg : pids.get? q.2 with
        | none =>
          rw [List.get?_eq_none] at hg
          omega
        | some b => exact ⟨b, rfl⟩
      have hsab : rrLook pids q = some (a, b) := by
        unfold rrLook
        rw [ha, hb]
      rw [hsab]
      rfl
  have hlen : (generateRoundRobinSchedule pids).length =
      pids.length * (pids.length - 1) / 2 := by
    rcases hcase with hne | hno
    · have hall : List.countP (fun q => (rrLook pids q).isSome)
          (rrFlatIdx N) = (rrFlatIdx N).length :=
        List.countP_eq_length.mpr (fun q hq => by
          rcases rrFlatIdx_mem N hNodd q hq with ⟨hq1, hq2, hq3⟩
          exact (hsome q hq).mpr ⟨by omega, by omega⟩)
      rw [hlenS, hall, rrFlatIdx_length, hne]
      obtain ⟨k, hk⟩ : ∃ k, N = 2 * k + 1 := ⟨N / 2, by omega⟩
      have harith := rr_arith_even k
      rw [← hk] at harith
      exact harith
    · have hnotp : List.countP
          (fun q => decide ¬ ((rrLook pids q).isSome = true))
          (rrFlatIdx N) =
          List.countP (fun q => decide (q.1 = N ∨ q.2 = N)) (rrFlatIdx N) :=
        List.countP_congr (fun q hq => by
          rcases rrFlatIdx_mem N hNodd q hq with ⟨hq1, hq2, hq3⟩
          simp only [decide_eq_true_eq]
          rw [hsome q hq]
          omega)
      have htot := List.length_eq_countP_add_countP
        (fun q => (rrLook pids q).isSome) (rrFlatIdx N)
      rw [hnotp, rrFlatIdx_countBye N hNodd, rrFlatIdx_length] at htot
      rw [hlenS, hno]
      obtain ⟨k, hk⟩ : ∃ k, N = 2 * k + 1 := ⟨N / 2, by omega⟩
      have harith := rr_arith_odd k
      rw [← hk] at harith
      omega
  have hmem : ∀ rm ∈ generateRoundRobinSchedule pids,
      rm.participant1 ∈ pids ∧ rm.participant2 ∈ pids ∧
        rm.participant1 ≠ rm.participant2 := by
    intro rm hrm
    have hpm : (rm.participant1, rm.participant2) ∈
        (rrFlatIdx N).filterMap (rrLook pids) := by
      rw [← hflat, ← hproj]
      exact List.mem_map_of_mem _ hrm
    rcases List.mem_filterMap.mp hpm with ⟨q, hqmem, hqeq⟩
    rcases rrFlatIdx_mem N hNodd q hqmem with ⟨hq1, hq2, hq3⟩
    obtain ⟨ha, hb⟩ : pids.get? q.1 = some rm.participant1 ∧
        pids.get? q.2 = some rm.participant2 := by
      unfold rrLook at hqeq
      cases hga : pids.get? q.1 with
      | none =>
        rw [hga] at hqeq
        exact Option.noConfusion hqeq
      | some a =>
        rw [hga] at hqeq
        cases hgb : pids.get? q.2 with
        | none =>
          rw [hgb] at hqeq
          exact Option.noConfusion hqeq
        | some b =>
          rw [hgb] at hqeq
          have h5 : some (a, b) =
              some (rm.participant1, rm.participant2) := hqeq
          have h6 := Option.some.inj h5
          have h7 : a = rm.participant1 := congrArg Prod.fst h6
          have h8 : b = rm.participant2 := congrArg Prod.snd h6
          constructor
          · rw [h7]
          · rw [h8]
    refine ⟨List.get?_mem ha, List.get?_mem hb, ?_⟩
    intro hP12
    have hlt : q.1 < pids.length := by
      by_contra hc
      rw [List.get?_eq_none.mpr (by omega)] at ha
      exact Option.noConfusion ha
    apply hq3
    apply List.get?_inj hlt hnd
    rw [ha, hb, hP12]
  have hcount : ∀ x ∈ pids, ∀ y ∈ pids, x ≠ y →
      List.countP (fun rm =>
          decide ((rm.participant1 = x ∧ rm.participant2 = y) ∨
            (rm.participant1 = y ∧ rm.participant2 = x)))
        (generateRoundRobinSchedule pids) = 1 := by
    intro x hxm y hym hxy
    have hc1 : List.countP (fun rm =>
        decide ((rm.participant1 = x ∧ rm.participant2 = y) ∨
          (rm.participant1 = y ∧ rm.participant2 = x)))
        (generateRoundRobinSchedule pids) =
        List.countP (fun pr : ℕ × ℕ =>
          decide ((pr.1 = x ∧ pr.2 = y) ∨ (pr.1 = y ∧ pr.2 = x)))
        ((generateRoundRobinSchedule pids).map
          (fun rm => (rm.participant1, rm.participant2))) := by
      rw [List.countP_map]
      rfl
    rw [hc1, hproj, hflat, List.countP_filterMap]
    have hix := List.indexOf_lt_length.mpr hxm
    have hiy := List.indexOf_lt_length.mpr hym
    have hixy : pids.indexOf x ≠ pids.indexOf y := by
      intro hEq
      apply hxy
      have h1 := List.indexOf_get? hxm
      have h2 := List.indexOf_get? hym
      rw [hEq] at h1
      rw [h2] at h1
      exact (Option.some.inj h1).symm
    have hcc : List.countP (fun q =>
        (Option.map (fun pr : ℕ × ℕ =>
          decide ((pr.1 = x ∧ pr.2 = y) ∨ (pr.1 = y ∧ pr.2 = x)))
          (rrLook pids q)).getD false) (rrFlatIdx N) =
        List.countP (fun q =>
          decide ((q.1 = pids.indexOf x ∧ q.2 = pids.indexOf y) ∨
            (q.1 = pids.indexOf y ∧ q.2 = pids.indexOf x)))
        (rrFlatIdx N) :=
      List.countP_congr (fun q hq => by
        rcases rrFlatIdx_mem N hNodd q hq with ⟨hq1, hq2, hq3⟩
        constructor
        · intro h
          cases hga : pids.get? q.1 with
          | none =>
            have hnone : rrLook pids q = none := by
              unfold rrLook
              rw [hga]
            rw [hnone] at h
            exact Bool.noConfusion h
          | some a =>
            cases hgb : pids.get? q.2 with
            | none =>
              have hnone : rrLook pids q = none := by
                unfold rrLook
                rw [hga, hgb]
              rw [hnone] at h
              exact Bool.noConfusion h
            | some b =>
              have hsab : rrLook pids q = some (a, b) := by
                unfold rrLook
                rw [hga, hgb]
              rw [hsab] at h
              have hd : (a = x ∧ b = y) ∨ (a = y ∧ b = x) := by
                simpa using h
              simp only [decide_eq_true_eq]
              rcases hd with ⟨rfl, rfl⟩ | ⟨rfl, rfl⟩
              · left
                exact ⟨(roster_get?_iff pids hnd _ hxm q.1).mp hga,
                  (roster_get?_iff pids hnd _ hym q.2).mp hgb⟩
              · right
                exact ⟨(roster_get?_iff pids hnd _ hym q.1).mp hga,
                  (roster_get?_iff pids hnd _ hxm q.2).mp hgb⟩
        · intro h
          simp only [decide_eq_true_eq] at h
          rcases h with ⟨h1, h2⟩ | ⟨h1, h2⟩
          · have hga : pids.get? q.1 = some x := by
              rw [h1]
              exact List.indexOf_get? hxm
            have hgb : pids.get? q.2 = some y := by
              rw [h2]
              exact List.indexOf_get? hym
            have hsab : rrLook pids q = some (x, y) := by
              unfold rrLook
              rw [hga, hgb]
            rw [hsab]
            simp
          · have hga : pids.get? q.1 = some y := by
              rw [h1]
              exact List.indexOf_get? hym
            have hgb : pids.get? q.2 = some x := by
              rw [h2]
              exact List.indexOf_get? hxm
            have hsab : rrLook pids q = some (y, x) := by
              unfold rrLook
              rw [hga, hgb]
            rw [hsab]
            simp)
    rw [hcc]
    exact rrFlatIdx_count N (pids.indexOf x) (pids.indexOf y) hNodd
      (by omega) (by omega) hixy
  exact ⟨hlen, hmem, hcount⟩

/-- Witness for the C5 theorem on the five-participant roster. -/
theorem roundRobin_pairs_witness :
    2 ≤ ([1, 2, 3, 4, 5] : List ℕ).length ∧
    ([1, 2, 3, 4, 5] : List ℕ).Nodup ∧
    ((generateRoundRobinSchedule [1, 2, 3, 4, 5]).length =
        ([1, 2, 3, 4, 5] : List ℕ).length *
          (([1, 2, 3, 4, 5] : List ℕ).length - 1) / 2 ∧
      (∀ rm ∈ generateRoundRobinSchedule [1, 2, 3, 4, 5],
          rm.participant1 ∈ ([1, 2, 3, 4, 5] : List ℕ) ∧
            rm.participant2 ∈ ([1, 2, 3, 4, 5] : List ℕ) ∧
            rm.participant1 ≠ rm.participant2) ∧
      (∀ x ∈ ([1, 2, 3, 4, 5] : List ℕ), ∀ y ∈ ([1, 2, 3, 4, 5] : List ℕ),
          x ≠ y →
          List.countP (fun rm =>
              decide ((rm.participant1 = x ∧ rm.participant2 = y) ∨
                (rm.participant1 = y ∧ rm.participant2 = x)))
            (generateRoundRobinSchedule [1, 2, 3, 4, 5]) = 1)) :=
  ⟨by decide, by decide,
    roundRobin_pairs [1, 2, 3, 4, 5] (by decide) (by decide)⟩
